import Mathlib

/-!
# chat-fishing: catch engine and cooldown limiter

A shallow embedding of `internal/ratelimit/limiter.go` and of the catalogue,
picker and size classifier of `internal/fish`, followed by the properties
proved about them.

Conventions of the embedding

* Go `int`, `time.Time` and `time.Duration` values are integers (`Int`); instants
  and durations are counted in nanoseconds. The values the code can hold are
  those of `isInt64`; an addition or subtraction of the source that can leave
  that range is followed by `wrapInt64`, the wrap-around of 64-bit arithmetic.
* A Go `map` is a function into `Option` (into `Bool` for a `map[..]bool`); a
  slice is a `List`. The length `make` can allocate is the argument
  `allocLimit` of the load.
* A Go panic (index out of range, `Intn`/`Int63n` with a non-positive bound,
  `make` with a length out of range) is the `none` of an `Option` result, or
  the `panic` of a `LoadResult`.
* Every reading of a clock or of a random generator is an explicit argument
  of the function that performs it.
* `float64` arithmetic is exact arithmetic in an ordered field `α` with a
  floor function (`ℚ` for evaluation, `ℝ` for the laws that need real
  powers); `math.Pow` is the parameter `pow`. Rounding to `float64`, overflow
  and NaN are not modelled.
-/

/-- Whether `x` is a value of a 64-bit signed integer (Go `int`, `int64`,
`time.Duration`). -/
def isInt64 (x : Int) : Bool :=
  decide (-9223372036854775808 ≤ x ∧ x < 9223372036854775808)

/-- The 64-bit signed integer that Go's wrapping arithmetic leaves for the exact
result `x`. -/
def wrapInt64 (x : Int) : Int :=
  (x + 9223372036854775808) % 18446744073709551616 - 9223372036854775808

namespace ratelimit

/-- An instant, in nanoseconds (Go `time.Time`). -/
abbrev Time := Int

/-- A span of time, in nanoseconds (Go `time.Duration`). -/
abbrev Duration := Int

/-- One second as a `Duration` (Go `time.Second`). -/
def Second : Duration := 1000000000

/-- The limiter: `next` is the key-to-deadline map, `min` and `max` the
cooldown bounds. The mutex, the clock and the generator of the Go struct are
not state of the model: clock readings and random draws are arguments. -/
structure Limiter where
  next : String → Option Time
  min : Duration
  max : Duration

/-- `NewLimiter(min, max, clk)`: an empty map, and `max` raised to `min` when it
is smaller. -/
def NewLimiter (min max : Duration) : Limiter :=
  let max := if max < min then min else max
  { next := fun _ => none, min := min, max := max }

/-- `rng.Int63n(n)`: panics when `n <= 0`, otherwise a value of `[0, n)`; `draw`
is the generator's raw output for this call. -/
def Int63n (draw : Nat) (n : Int) : Option Int :=
  if n ≤ 0 then none else some ((draw : Int) % n)

/-- `(*Limiter).nextCooldown`. The bounds of a limiter are `time.Duration`
values, for which `l.max - l.min` wraps at 64 bits; on integers that are not
such values the model subtracts exactly. -/
def Limiter.nextCooldown (l : Limiter) (draw : Nat) : Option Duration :=
  if l.min = l.max then some l.min
  else
    let span :=
      if isInt64 l.min = true ∧ isInt64 l.max = true then wrapInt64 (l.max - l.min)
      else l.max - l.min
    match Int63n draw span with
    | none => none
    | some jitter => some (l.min + jitter)

/-- `(*Limiter).TryKey`. `now` is the reading `l.clk.Now()` taken on entry,
`wall` the reading of the system clock that `time.Until` takes on the denied
path, `draw` the generator's output if a cooldown is drawn. The result is the
limiter afterwards with the two returned values. -/
def Limiter.TryKey (l : Limiter) (now wall : Time) (draw : Nat) (key : String) :
    Option (Limiter × Bool × Duration) :=
  let grant : Option (Limiter × Bool × Duration) :=
    match l.nextCooldown draw with
    | none => none
    | some c =>
      some ({ l with next := fun k => if k = key then some (now + c) else l.next k }, true, 0)
  match l.next key with
  | some deadline => if now < deadline then some (l, false, deadline - wall) else grant
  | none => grant

/-- `(*Limiter).Try`. -/
def Limiter.Try (l : Limiter) (now wall : Time) (draw : Nat) (guildId userId : String) :
    Option (Limiter × Bool × Duration) :=
  l.TryKey now wall draw (guildId ++ ":" ++ userId)

/-- `(*Limiter).TryGuild`. -/
def Limiter.TryGuild (l : Limiter) (now wall : Time) (draw : Nat) (guildId bucket : String) :
    Option (Limiter × Bool × Duration) :=
  l.TryKey now wall draw ("g:" ++ guildId ++ "|b:" ++ bucket)

/-- `(*Limiter).Reset`. -/
def Limiter.Reset (l : Limiter) (guildId userId : String) : Limiter :=
  { l with next := fun k => if k = guildId ++ ":" ++ userId then none else l.next k }

/-- `(*Limiter).Peek`. -/
def Limiter.Peek (l : Limiter) (guildId userId : String) : Option Time :=
  l.next (guildId ++ ":" ++ userId)

end ratelimit

namespace fish

/-- Go `type SpeciesId int`. -/
abbrev SpeciesId := Int

/-- Go `type Species struct`; `α` stands for `float64`. -/
structure Species (α : Type) where
  Id : SpeciesId
  Key : String
  Name : String
  Weight : Int
  MinSize : α
  MaxSize : α
  SizeBias : α
  Tags : List String
  Image : String

/-- Go `type SpeciesJSON struct`: one descriptor of the catalogue file. -/
structure SpeciesJSON (α : Type) where
  Id : Int
  Key : String
  Name : String
  Weight : Int
  MinSize : α
  MaxSize : α
  SizeBias : α
  Tags : List String
  Image : String

/-- The zero value `Species{}`, which fills a slice made by `make`. -/
def Species.zero {α : Type} [Zero α] : Species α :=
  { Id := 0, Key := "", Name := "", Weight := 0, MinSize := 0, MaxSize := 0,
    SizeBias := 0, Tags := [], Image := "" }

/-- Go `type Registry struct`. -/
structure Registry (α : Type) where
  byId : List (Species α)
  byKey : String → Option SpeciesId

/-- The errors `LoadRegistryFromJSON` returns after the file is decoded, one
constructor per `fmt.Errorf` of the source. -/
inductive LoadError where
  | emptyList
  | negativeId (index : Nat)
  | duplicateId (id : Int)
  | missingKey (id : Int)
  | duplicateKey (key : String)
  | nonDense (id : Int)
  | gap (id : Nat)
  deriving DecidableEq, Repr

/-- The variables the first loop of `LoadRegistryFromJSON` updates. `ids` holds
the entries written so far, in index order. -/
structure ScanState where
  maxId : Int
  ids : List Int
  seenKey : String → Bool
  seenId : Int → Bool

/-- The first loop of `LoadRegistryFromJSON` from index `i` on, `arr` being the
descriptors not yet visited. -/
def scanLoop {α : Type} : List (SpeciesJSON α) → Nat → ScanState → Except LoadError ScanState
  | [], _, st => .ok st
  | sj :: rest, i, st =>
    let id := sj.Id
    if id < 0 then .error (.negativeId i)
    else if st.seenId id = true then .error (.duplicateId id)
    else if sj.Key = "" then .error (.missingKey id)
    else if st.seenKey sj.Key = true then .error (.duplicateKey sj.Key)
    else
      scanLoop rest (i + 1)
        { seenId := fun x => if x = id then true else st.seenId x
          seenKey := fun k => if k = sj.Key then true else st.seenKey k
          ids := st.ids ++ [id]
          maxId := if id > st.maxId then id else st.maxId }

/-- The species the second loop of `LoadRegistryFromJSON` stores for the
descriptor `sj`: the weight is raised to 1, the image is not copied. -/
def storedSpecies {α : Type} (sj : SpeciesJSON α) : Species α :=
  { Id := sj.Id, Key := sj.Key, Name := sj.Name,
    Weight := if sj.Weight < 1 then 1 else sj.Weight,
    MinSize := sj.MinSize, MaxSize := sj.MaxSize, SizeBias := sj.SizeBias,
    Tags := sj.Tags, Image := "" }

/-- The second loop of `LoadRegistryFromJSON` from index `i` on: it writes the
species of each descriptor at its id. The indices it reads are in range
(`i < len(ids)`, `id <= maxId`). -/
def fillLoop {α : Type} [Zero α] :
    List (SpeciesJSON α) → Nat → List Int → List (Species α) → Except LoadError (List (Species α))
  | [], _, _, byId => .ok byId
  | sj :: rest, i, ids, byId =>
    let id := ids.getD i 0
    if (byId.getD id.toNat Species.zero).Key ≠ "" then .error (.nonDense id)
    else
      let weight := if sj.Weight < 1 then 1 else sj.Weight
      fillLoop rest (i + 1) ids
        (byId.set id.toNat
          { Id := id, Key := sj.Key, Name := sj.Name, Weight := weight,
            MinSize := sj.MinSize, MaxSize := sj.MaxSize, SizeBias := sj.SizeBias,
            Tags := sj.Tags, Image := "" })

/-- The third loop of `LoadRegistryFromJSON` from id `id` on: it rejects a slot
left empty and records each key. -/
def indexLoop {α : Type} :
    List (Species α) → Nat → (String → Option SpeciesId) →
      Except LoadError (String → Option SpeciesId)
  | [], _, byKey => .ok byKey
  | sp :: rest, id, byKey =>
    if sp.Key = "" then .error (.gap id)
    else indexLoop rest (id + 1) (fun k => if k = sp.Key then some (id : Int) else byKey k)

/-- How `LoadRegistryFromJSON` ends: with a registry, with a returned error, or
in a run-time panic (nothing is returned). -/
inductive LoadResult (α : Type) where
  | ok (reg : Registry α)
  | error (e : LoadError)
  | panic

/-- `LoadRegistryFromJSON` once the file is read and decoded into `arr`.
`allocLimit` is the largest length for which `make([]Species, n)` succeeds in
this run (at most `maxAlloc / sizeof(Species)`, less when memory is short);
`make` panics for a longer slice, and for the negative length that
`maxId + 1` wraps to when `maxId` is the largest `int`. -/
def LoadRegistryFromJSON {α : Type} [Zero α] (allocLimit : Nat) (arr : List (SpeciesJSON α)) :
    LoadResult α :=
  if arr.length = 0 then .error .emptyList
  else
    match scanLoop arr 0
        { maxId := -1, ids := [], seenKey := fun _ => false, seenId := fun _ => false } with
    | .error e => .error e
    | .ok st =>
      if (allocLimit : Int) < st.maxId + 1 ∨ 9223372036854775808 ≤ st.maxId + 1 then .panic
      else
        match fillLoop arr 0 st.ids (List.replicate (st.maxId + 1).toNat Species.zero) with
        | .error e => .error e
        | .ok byId =>
          match indexLoop byId 0 (fun _ => none) with
          | .error e => .error e
          | .ok byKey => .ok { byId := byId, byKey := byKey }

/-- `(*Registry).GetById`. -/
def Registry.GetById {α : Type} (r : Registry α) (id : SpeciesId) : Option (Species α) :=
  if id < 0 ∨ id ≥ (r.byId.length : Int) then none else r.byId[id.toNat]?

/-- `(*Registry).NameById`. -/
def Registry.NameById {α : Type} (r : Registry α) (id : SpeciesId) : String :=
  match r.GetById id with
  | some sp => sp.Name
  | none => "Unknown"

/-- `(*Registry).IdByKey`. -/
def Registry.IdByKey {α : Type} (r : Registry α) (key : String) : Option SpeciesId :=
  r.byKey key

/-- `(*Registry).EmbedThumb`: the URL of the thumbnail, if there is one. -/
def Registry.EmbedThumb {α : Type} (r : Registry α) (id : SpeciesId) : Option String :=
  match r.GetById id with
  | some sp => if sp.Image ≠ "" then some sp.Image else none
  | none => none

/-- `(*Registry).All`. -/
def Registry.All {α : Type} (r : Registry α) : List (Species α) := r.byId

/-- `(*Registry).Count`. -/
def Registry.Count {α : Type} (r : Registry α) : Int := r.byId.length

/-- The cumulative weight below id `k`: the sum of the weights of the species
with ids `0 .. k-1`. -/
def cumulativeWeight {α : Type} (all : List (Species α)) (k : Nat) : Int :=
  ((all.take k).map (fun sp => sp.Weight)).sum

/-- Go `type Picker struct`, without the generator. -/
structure Picker (α : Type) where
  reg : Registry α
  cumulative : List Int
  totalWeight : Int
  meanWeight : α

/-- The loop of `NewPicker`: the running sums written to `p.cumulative`, in index
order, and the final `totalWeight`. The addition `totalWeight += sp.Weight`
wraps at 64 bits. -/
def cumulativeLoop {α : Type} : List (Species α) → Int → List Int × Int
  | [], totalWeight => ([], totalWeight)
  | sp :: rest, totalWeight =>
    let weight := if sp.Weight < 1 then 1 else sp.Weight
    let totalWeight := wrapInt64 (totalWeight + weight)
    let r := cumulativeLoop rest totalWeight
    (totalWeight :: r.1, r.2)

/-- `NewPicker(reg, rng)`. -/
def NewPicker {α : Type} [Div α] [IntCast α] [NatCast α] (reg : Registry α) : Picker α :=
  let all := reg.All
  let r := cumulativeLoop all 0
  { reg := reg, cumulative := r.1, totalWeight := r.2,
    meanWeight := (r.2 : α) / (all.length : α) }

/-- `rng.Intn(n)`: panics when `n <= 0`, otherwise a value of `[0, n)`; `draw` is
the generator's raw output for this call. -/
def Intn (draw : Nat) (n : Int) : Option Int :=
  if n ≤ 0 then none else some ((draw : Int) % n)

/-- The binary search of `PickId`. `fuel` bounds the number of iterations; the
result is `none` when the fuel runs out or an index is out of range. The
midpoint `(lo + hi) >> 1` is the floor of the half. -/
def searchLoop (cumulative : List Int) (roll : Int) : Nat → Int → Int → Option Int
  | 0, lo, hi => if lo < hi then none else some lo
  | fuel + 1, lo, hi =>
    if lo < hi then
      let mid := (lo + hi) / 2
      if mid < 0 then none
      else
        match cumulative[mid.toNat]? with
        | none => none
        | some c =>
          if roll < c then searchLoop cumulative roll fuel lo mid
          else searchLoop cumulative roll fuel (mid + 1) hi
    else some lo

/-- `(*Picker).PickId`, `draw` being the generator's output. -/
def Picker.PickId {α : Type} (p : Picker α) (draw : Nat) : Option SpeciesId :=
  match Intn draw p.totalWeight with
  | none => none
  | some roll =>
    searchLoop p.cumulative roll p.cumulative.length 0 ((p.cumulative.length : Int) - 1)

/-- Go `math.Round`: the nearest integer, halves away from zero. -/
def mathRound {α : Type} [LinearOrderedField α] [FloorRing α] (x : α) : α :=
  if x < 0 then -((⌊-x + 1 / 2⌋ : Int) : α) else ((⌊x + 1 / 2⌋ : Int) : α)

/-- `SizePercentile(sp, size)`. -/
def SizePercentile {α : Type} [LinearOrderedField α] (pow : α → α → α)
    (sp : Species α) (size : α) : α :=
  if sp.MaxSize ≤ sp.MinSize then 0
  else
    let x := (size - sp.MinSize) / (sp.MaxSize - sp.MinSize)
    let x := if x < 0 then 0 else if x > 1 then 1 else x
    let k := if sp.SizeBias ≤ 0 then 1 else sp.SizeBias
    pow x (1 / k)

/-- Go `type RarityTier int`. -/
abbrev RarityTier := Int

def TierCommon : RarityTier := 0
def TierUncommon : RarityTier := 1
def TierRare : RarityTier := 2
def TierEpic : RarityTier := 3
def TierLegendary : RarityTier := 4
def TierMythic : RarityTier := 5

/-- `(*Picker).SpeciesTier`. -/
def Picker.SpeciesTier {α : Type} [LinearOrderedField α] (p : Picker α) (id : SpeciesId) :
    RarityTier :=
  match p.reg.GetById id with
  | none => TierCommon
  | some sp =>
    let r := (sp.Weight : α) / p.meanWeight
    if r < 0.05 then TierMythic
    else if r < 0.20 then TierLegendary
    else if r < 0.50 then TierEpic
    else if r < 1.00 then TierRare
    else if r < 1.50 then TierUncommon
    else TierCommon

end fish

theorem wrapInt64_eq (x : Int) (h0 : -9223372036854775808 ≤ x)
    (h1 : x < 9223372036854775808) : wrapInt64 x = x := by
  unfold wrapInt64
  rw [Int.emod_eq_of_lt (by omega) (by omega)]
  omega

theorem isInt64_iff (x : Int) :
    isInt64 x = true ↔ -9223372036854775808 ≤ x ∧ x < 9223372036854775808 := by
  unfold isInt64
  exact decide_eq_true_iff

namespace ratelimit

theorem NewLimiter_min (cmin cmax : Duration) : (NewLimiter cmin cmax).min = cmin := rfl

theorem NewLimiter_max (cmin cmax : Duration) :
    (NewLimiter cmin cmax).max = Max.max cmin cmax := by
  unfold NewLimiter
  by_cases h : cmax < cmin
  · simp [h, max_eq_left (le_of_lt h)]
  · simp [h, max_eq_right (not_lt.mp h)]

theorem NewLimiter_next (cmin cmax : Duration) (k : String) :
    (NewLimiter cmin cmax).next k = none := rfl

theorem nextCooldown_some (l : Limiter) (h : l.min ≤ l.max)
    (hspan : isInt64 l.min = true → isInt64 l.max = true →
      l.max - l.min < 9223372036854775808) (draw : Nat) :
    ∃ c, l.nextCooldown draw = some c ∧
      (l.min = l.max → c = l.min) ∧ (l.min ≠ l.max → l.min ≤ c ∧ c < l.max) := by
  unfold Limiter.nextCooldown Int63n
  by_cases he : l.min = l.max
  · exact ⟨l.min, by simp [he], fun _ => rfl, fun hne => absurd he hne⟩
  · have hpos : 0 < l.max - l.min := sub_pos.mpr (lt_of_le_of_ne h he)
    have hsp : (if isInt64 l.min = true ∧ isInt64 l.max = true then wrapInt64 (l.max - l.min)
        else l.max - l.min) = l.max - l.min := by
      split
      · rename_i hb
        exact wrapInt64_eq _ (le_trans (by norm_num) (le_of_lt hpos)) (hspan hb.1 hb.2)
      · rfl
    have h1 := Int.emod_nonneg (draw : Int) (ne_of_gt hpos)
    have h2 := Int.emod_lt_of_pos (draw : Int) hpos
    refine ⟨l.min + (draw : Int) % (l.max - l.min), ?_, fun h => absurd h he,
      fun _ => ⟨by linarith, by linarith⟩⟩
    simp only [he, if_false, hsp]
    rw [if_neg (not_le.mpr hpos)]

theorem TryKey_grant (l : Limiter) (now wall : Time) (draw : Nat) (key : String) (c : Duration)
    (hc : l.nextCooldown draw = some c)
    (hk : ∀ t, l.next key = some t → t ≤ now) :
    l.TryKey now wall draw key
      = some (⟨fun k => if k = key then some (now + c) else l.next k, l.min, l.max⟩, true, 0) := by
  unfold Limiter.TryKey
  rw [hc]
  cases hn : l.next key with
  | none => rfl
  | some t =>
    have := hk t hn
    simp [not_lt.mpr this]

theorem TryKey_deny (l : Limiter) (now wall : Time) (draw : Nat) (key : String) (t : Time)
    (hn : l.next key = some t) (hlt : now < t) :
    l.TryKey now wall draw key = some (l, false, t - wall) := by
  unfold Limiter.TryKey
  simp [hn, hlt]

/-- C2 (counterexample). With `minCooldown = -5e18 ns` and
`maxCooldown = 5e18 ns` the span `max - min` wraps to a negative `int64`, and the
first `TryKey` panics in `Int63n`: it returns nothing. -/
theorem TryKey_span_overflow_panics :
    (NewLimiter (-5000000000000000000) 5000000000000000000).TryKey 0 0 0 "k" = none ∧
    isInt64 (-5000000000000000000) = true ∧ isInt64 5000000000000000000 = true := by
  refine ⟨?_, by decide, by decide⟩
  simp [Limiter.TryKey, Limiter.nextCooldown, NewLimiter, Int63n, isInt64, wrapInt64]

/-- C2 (amended). For a limiter built by `NewLimiter cmin cmax` whose span
`max - cmin` (with `max` the clamped maximum) is below `2^63`, so that it does
not overflow, in any state `next`, and any key and clock reading `now`: `TryKey`
returns; it allows the call exactly when the key has no entry or its deadline
is at most `now`; when it allows the call it returns `(true, 0)` and stores
`now + c` for the key, where `c = cmin` if `cmin` equals the clamped maximum and
`cmin ≤ c < max` otherwise. With both bounds at 60 s, a try at `T0` and a try at
`T0 + 60 s` are both `(true, 0)`. -/
theorem TryKey_allowed_spec (cmin cmax : Duration)
    (hspan : Max.max cmin cmax - cmin < 9223372036854775808) :
    (∀ (next : String → Option Time) (key : String) (now wall : Time) (draw : Nat),
      ∃ (l' : Limiter) (ok : Bool) (rem : Duration),
        Limiter.TryKey ⟨next, (NewLimiter cmin cmax).min, (NewLimiter cmin cmax).max⟩
            now wall draw key = some (l', ok, rem) ∧
        (ok = true ↔ (next key = none ∨ ∃ t, next key = some t ∧ t ≤ now)) ∧
        (ok = true → rem = 0 ∧ ∃ c, l'.next key = some (now + c) ∧
          (cmin = Max.max cmin cmax → c = cmin) ∧
          (cmin ≠ Max.max cmin cmax → cmin ≤ c ∧ c < Max.max cmin cmax))) ∧
    (∀ (key : String) (T0 wall1 wall2 : Time) (draw1 draw2 : Nat),
      ∃ l1 l2 : Limiter,
        (NewLimiter (60 * Second) (60 * Second)).TryKey T0 wall1 draw1 key
            = some (l1, true, 0) ∧
        l1.TryKey (T0 + 60 * Second) wall2 draw2 key = some (l2, true, 0)) := by
  constructor
  · intro next key now wall draw
    rw [NewLimiter_min, NewLimiter_max]
    obtain ⟨c, hc, hc1, hc2⟩ :=
      nextCooldown_some ⟨next, cmin, Max.max cmin cmax⟩ (le_max_left _ _)
        (fun _ _ => hspan) draw
    by_cases hd : ∃ t, next key = some t ∧ now < t
    · obtain ⟨t, hn, hlt⟩ := hd
      refine ⟨_, false, t - wall, TryKey_deny _ now wall draw key t hn hlt, ?_, by simp⟩
      simp only [Bool.false_eq_true, false_iff, not_or, not_exists, not_and, hn]
      refine ⟨by simp, fun t' ht' => ?_⟩
      cases ht'
      exact not_le.mpr hlt
    · have hk : ∀ t, next key = some t → t ≤ now := fun t ht =>
        not_lt.mp (fun hlt => hd ⟨t, ht, hlt⟩)
      refine ⟨_, true, 0, TryKey_grant _ now wall draw key c hc hk, ?_,
        fun _ => ⟨rfl, c, by simp, hc1, hc2⟩⟩
      simp only [true_iff]
      cases hn : next key with
      | none => exact Or.inl rfl
      | some t => exact Or.inr ⟨t, rfl, hk t hn⟩
  · intro key T0 wall1 wall2 draw1 draw2
    have h1 := TryKey_grant (NewLimiter (60 * Second) (60 * Second)) T0 wall1 draw1 key
      (60 * Second) (by simp [Limiter.nextCooldown, NewLimiter]) (by simp [NewLimiter])
    exact ⟨_, _, h1, TryKey_grant _ (T0 + 60 * Second) wall2 draw2 key (60 * Second)
      (by simp [Limiter.nextCooldown, NewLimiter]) (by simp)⟩

theorem TryKey_allowed_spec_witness :
    ∃ (l' : Limiter) (ok : Bool) (rem : Duration),
      Limiter.TryKey ⟨fun _ => none, (NewLimiter (240 * Second) (300 * Second)).min,
          (NewLimiter (240 * Second) (300 * Second)).max⟩ 0 0 7 "k" = some (l', ok, rem) ∧
      (ok = true ↔ ((none : Option Time) = none ∨ ∃ t, (none : Option Time) = some t ∧ t ≤ 0)) ∧
      (ok = true → rem = 0 ∧ ∃ c, l'.next "k" = some (0 + c) ∧
        (240 * Second = Max.max (240 * Second) (300 * Second) → c = 240 * Second) ∧
        (240 * Second ≠ Max.max (240 * Second) (300 * Second) →
          240 * Second ≤ c ∧ c < Max.max (240 * Second) (300 * Second))) :=
  (TryKey_allowed_spec (240 * Second) (300 * Second) (by decide)).1 (fun _ => none) "k" 0 0 7

/-- C3 (the code at the failing input). With both bounds at 60 s, the injected
clock at `0` for the first try and at 30 s for the second, and the system clock
at 100 s: the second try is denied with `-40 s`, which is
`deadline - system clock`, where the injected clock gives `30 s`. -/
theorem TryKey_denied_reads_system_clock :
    ∃ l1 : Limiter,
      (NewLimiter (60 * Second) (60 * Second)).TryKey 0 (100 * Second) 0 "k"
          = some (l1, true, 0) ∧
      l1.TryKey (30 * Second) (100 * Second) 0 "k" = some (l1, false, -(40 * Second)) ∧
      l1.next "k" = some (60 * Second) ∧
      (60 * Second - 30 * Second : Duration) ≠ -(40 * Second) := by
  have h1 := TryKey_grant (NewLimiter (60 * Second) (60 * Second)) 0 (100 * Second) 0 "k"
    (60 * Second) (by simp [Limiter.nextCooldown, NewLimiter]) (by simp [NewLimiter])
  refine ⟨_, h1, ?_, by simp, by simp [Second]⟩
  have h2 := TryKey_deny ⟨fun k => if k = "k" then some (0 + 60 * Second) else
      (NewLimiter (60 * Second) (60 * Second)).next k,
      (NewLimiter (60 * Second) (60 * Second)).min,
      (NewLimiter (60 * Second) (60 * Second)).max⟩ (30 * Second) (100 * Second) 0 "k"
      (60 * Second) (by simp) (by simp [Second])
  rw [h2]
  simp [Second]

/-- C4 (counterexample). With both bounds at `0` the second try, at the same
clock reading, is allowed. -/
theorem TryKey_zero_cooldown_second_allowed :
    ∃ l1 l2 : Limiter,
      (NewLimiter 0 0).TryKey 5 5 0 "k" = some (l1, true, 0) ∧
      l1.TryKey 5 5 0 "k" = some (l2, true, 0) := by
  have h1 := TryKey_grant (NewLimiter 0 0) 5 5 0 "k" 0
    (by simp [Limiter.nextCooldown, NewLimiter]) (by simp [NewLimiter])
  exact ⟨_, _, h1,
    TryKey_grant _ 5 5 0 "k" 0 (by simp [Limiter.nextCooldown, NewLimiter]) (by simp)⟩

/-- C4 (amended). When `minCooldown > 0`, for every `maxCooldown` and key: the
first `TryKey` on a fresh limiter is `(true, 0)`, and a second `TryKey` with the
same key at the same clock reading is denied. -/
theorem TryKey_first_allowed_second_denied (cmin cmax : Duration) (hmin : 0 < cmin)
    (key : String) (now wall1 wall2 : Time) (draw1 draw2 : Nat) :
    ∃ (l1 : Limiter) (rem : Duration),
      (NewLimiter cmin cmax).TryKey now wall1 draw1 key = some (l1, true, 0) ∧
      l1.TryKey now wall2 draw2 key = some (l1, false, rem) := by
  have hle : (NewLimiter cmin cmax).min ≤ (NewLimiter cmin cmax).max := by
    rw [NewLimiter_min, NewLimiter_max]; exact le_max_left _ _
  have hfit : isInt64 (NewLimiter cmin cmax).min = true →
      isInt64 (NewLimiter cmin cmax).max = true →
      (NewLimiter cmin cmax).max - (NewLimiter cmin cmax).min < 9223372036854775808 := by
    intro _ hb
    have hb' := ((isInt64_iff _).mp hb).2
    rw [NewLimiter_min]
    linarith
  obtain ⟨c, hc, hc1, hc2⟩ := nextCooldown_some (NewLimiter cmin cmax) hle hfit draw1
  have hcpos : 0 < c := by
    by_cases he : (NewLimiter cmin cmax).min = (NewLimiter cmin cmax).max
    · rw [hc1 he, NewLimiter_min]; exact hmin
    · have := (hc2 he).1
      rw [NewLimiter_min] at this
      exact lt_of_lt_of_le hmin this
  have h1 := TryKey_grant (NewLimiter cmin cmax) now wall1 draw1 key c hc
    (by simp [NewLimiter_next])
  refine ⟨_, now + c - wall2, h1, ?_⟩
  exact TryKey_deny _ now wall2 draw2 key (now + c) (by simp) (by linarith)

theorem TryKey_first_allowed_second_denied_witness :
    ∃ (l1 : Limiter) (rem : Duration),
      (NewLimiter (60 * Second) (90 * Second)).TryKey 0 0 7 "k" = some (l1, true, 0) ∧
      l1.TryKey 0 0 7 "k" = some (l1, false, rem) :=
  TryKey_first_allowed_second_denied (60 * Second) (90 * Second) (by decide) "k" 0 0 0 7 7

end ratelimit

namespace fish

section registry
variable {α : Type}

theorem scanLoop_ok (rest : List (SpeciesJSON α)) :
    ∀ (i : Nat) (st st' : ScanState), scanLoop rest i st = .ok st' →
      (∀ d ∈ rest, 0 ≤ d.Id ∧ d.Key ≠ "" ∧ st.seenId d.Id = false ∧ st.seenKey d.Key = false) ∧
      (rest.map (fun d => d.Id)).Nodup ∧ (rest.map (fun d => d.Key)).Nodup ∧
      st'.ids = st.ids ++ rest.map (fun d => d.Id) ∧
      st.maxId ≤ st'.maxId ∧ (∀ d ∈ rest, d.Id ≤ st'.maxId) ∧
      (st'.maxId = st.maxId ∨ st'.maxId ∈ rest.map (fun d => d.Id)) := by
  induction rest with
  | nil =>
    intro i st st' h
    simp only [scanLoop, Except.ok.injEq] at h
    subst h
    simp
  | cons sj rest ih =>
    intro i st st' h
    simp only [scanLoop] at h
    split at h
    · cases h
    split at h
    · cases h
    split at h
    · cases h
    split at h
    · cases h
    rename_i h1 h2 h3 h4
    obtain ⟨a, b, c, d, e, f, g⟩ := ih _ _ _ h
    simp only [Bool.not_eq_true] at h2 h4
    refine ⟨?_, ?_, ?_, ?_, ?_, ?_, ?_⟩
    · intro x hx
      rcases List.mem_cons.mp hx with rfl | hx
      · exact ⟨not_lt.mp h1, h3, h2, h4⟩
      · obtain ⟨p, q, r, s⟩ := a x hx
        refine ⟨p, q, ?_, ?_⟩
        · by_cases hxe : x.Id = sj.Id
          · simp [hxe] at r
          · simpa [hxe] using r
        · by_cases hxe : x.Key = sj.Key
          · simp [hxe] at s
          · simpa [hxe] using s
    · rw [List.map_cons, List.nodup_cons]
      refine ⟨?_, b⟩
      intro hm
      obtain ⟨x, hx, hxe⟩ := List.mem_map.mp hm
      have := (a x hx).2.2.1
      simp [hxe] at this
    · rw [List.map_cons, List.nodup_cons]
      refine ⟨?_, c⟩
      intro hm
      obtain ⟨x, hx, hxe⟩ := List.mem_map.mp hm
      have := (a x hx).2.2.2
      simp [hxe] at this
    · rw [d]; simp
    · refine le_trans ?_ e
      show st.maxId ≤ if sj.Id > st.maxId then sj.Id else st.maxId
      split <;> omega
    · intro x hx
      rcases List.mem_cons.mp hx with rfl | hx
      · refine le_trans ?_ e
        show x.Id ≤ if x.Id > st.maxId then x.Id else st.maxId
        split <;> omega
      · exact f x hx
    · rcases g with g | g
      · by_cases hgt : sj.Id > st.maxId
        · right
          simp only [hgt, if_true] at g
          simp [g]
        · left
          simpa [hgt] using g
      · right
        exact List.mem_cons_of_mem _ g

theorem scanLoop_complete (rest : List (SpeciesJSON α)) :
    ∀ (i : Nat) (st : ScanState),
      (∀ d ∈ rest, 0 ≤ d.Id ∧ d.Key ≠ "" ∧ st.seenId d.Id = false ∧ st.seenKey d.Key = false) →
      (rest.map (fun d => d.Id)).Nodup → (rest.map (fun d => d.Key)).Nodup →
      ∃ st', scanLoop rest i st = .ok st' := by
  induction rest with
  | nil => intro i st _ _ _; exact ⟨st, rfl⟩
  | cons sj rest ih =>
    intro i st h hid hkey
    obtain ⟨p, q, r, s⟩ := h sj (List.mem_cons_self _ _)
    rw [List.map_cons, List.nodup_cons] at hid hkey
    simp only [scanLoop, not_lt.mpr p, q, r, s, if_false, Bool.false_eq_true]
    apply ih _ _ _ hid.2 hkey.2
    intro x hx
    obtain ⟨p', q', r', s'⟩ := h x (List.mem_cons_of_mem _ hx)
    refine ⟨p', q', ?_, ?_⟩
    · have : x.Id ≠ sj.Id := fun he => hid.1 (List.mem_map.mpr ⟨x, hx, he⟩)
      simpa [this] using r'
    · have : x.Key ≠ sj.Key := fun he => hkey.1 (List.mem_map.mpr ⟨x, hx, he⟩)
      simpa [this] using s'

theorem fillLoop_ok [Zero α] (rest : List (SpeciesJSON α)) :
    ∀ (i : Nat) (ids : List Int) (byId : List (Species α)),
      ids.drop i = rest.map (fun d => d.Id) →
      (rest.map (fun d => d.Id)).Nodup →
      (∀ d ∈ rest, 0 ≤ d.Id ∧ d.Id.toNat < byId.length ∧
        (byId.getD d.Id.toNat Species.zero).Key = "") →
      ∃ byId', fillLoop rest i ids byId = .ok byId' ∧ byId'.length = byId.length ∧
        (∀ d ∈ rest, byId'[d.Id.toNat]? = some (storedSpecies d)) ∧
        (∀ j : Nat, (∀ d ∈ rest, d.Id.toNat ≠ j) → byId'[j]? = byId[j]?) := by
  induction rest with
  | nil =>
    intro i ids byId _ _ _
    exact ⟨byId, rfl, rfl, by simp, fun _ _ => rfl⟩
  | cons sj rest ih =>
    intro i ids byId hdrop hnd h
    have hget : ids.getD i 0 = sj.Id := by
      have h0 : (ids.drop i)[0]? = some sj.Id := by rw [hdrop]; simp
      rw [List.getElem?_drop] at h0
      simp only [add_zero] at h0
      rw [List.getD_eq_getElem?_getD, h0]
      rfl
    have hdrop' : ids.drop (i + 1) = rest.map (fun d => d.Id) := by
      have : ids.drop (i + 1) = (ids.drop i).tail := by
        rw [List.tail_drop]
      rw [this, hdrop]
      rfl
    obtain ⟨p, q, r⟩ := h sj (List.mem_cons_self _ _)
    rw [List.map_cons, List.nodup_cons] at hnd
    have hrest : ∀ d ∈ rest, 0 ≤ d.Id ∧
        d.Id.toNat < (byId.set sj.Id.toNat (storedSpecies sj)).length ∧
        ((byId.set sj.Id.toNat (storedSpecies sj)).getD d.Id.toNat Species.zero).Key = "" := by
      intro d hd
      obtain ⟨p', q', r'⟩ := h d (List.mem_cons_of_mem _ hd)
      have hne : d.Id ≠ sj.Id := fun he => hnd.1 (List.mem_map.mpr ⟨d, hd, he⟩)
      have hne' : sj.Id.toNat ≠ d.Id.toNat := by omega
      refine ⟨p', by rw [List.length_set]; exact q', ?_⟩
      rw [List.getD_eq_getElem?_getD, List.getElem?_set_ne hne', ← List.getD_eq_getElem?_getD]
      exact r'
    obtain ⟨byId', e1, e2, e3, e4⟩ := ih (i + 1) ids _ hdrop' hnd.2 hrest
    refine ⟨byId', ?_, ?_, ?_, ?_⟩
    · simp only [fillLoop, hget, r, ne_eq, not_true_eq_false, if_false]
      exact e1
    · rw [e2, List.length_set]
    · intro d hd
      rcases List.mem_cons.mp hd with rfl | hd
      · rw [e4 d.Id.toNat]
        · exact List.getElem?_set_self q
        · intro x hx he
          have hxp := (h x (List.mem_cons_of_mem _ hx)).1
          have : x.Id = d.Id := by omega
          exact hnd.1 (List.mem_map.mpr ⟨x, hx, this⟩)
      · exact e3 d hd
    · intro j hj
      rw [e4 j (fun d hd => hj d (List.mem_cons_of_mem _ hd))]
      exact List.getElem?_set_ne (hj sj (List.mem_cons_self _ _))

theorem indexLoop_ok_iff (l : List (Species α)) :
    ∀ (id : Nat) (byKey : String → Option SpeciesId),
      (∃ r, indexLoop l id byKey = .ok r) ↔ ∀ sp ∈ l, sp.Key ≠ "" := by
  induction l with
  | nil => intro id byKey; simp [indexLoop]
  | cons sp rest ih =>
    intro id byKey
    by_cases hk : sp.Key = ""
    · simp [indexLoop, hk]
    · simp only [indexLoop, hk, if_false, ih, List.mem_cons, forall_eq_or_imp, ne_eq,
        not_false_eq_true, true_and]

theorem indexLoop_lookup (l : List (Species α)) :
    ∀ (id : Nat) (byKey r : String → Option SpeciesId),
      indexLoop l id byKey = .ok r →
      (∀ (j1 j2 : Nat) (s1 s2 : Species α), l[j1]? = some s1 → l[j2]? = some s2 →
        s1.Key = s2.Key → j1 = j2) →
      ∀ (k : String) (v : Int), r k = some v ↔
        ((∃ (j : Nat) (s : Species α), l[j]? = some s ∧ s.Key = k ∧ v = ((id + j : Nat) : Int)) ∨
          ((∀ s ∈ l, s.Key ≠ k) ∧ byKey k = some v)) := by
  induction l with
  | nil =>
    intro id byKey r h _ k v
    simp only [indexLoop, Except.ok.injEq] at h
    subst h
    simp
  | cons sp rest ih =>
    intro id byKey r h hinj k v
    simp only [indexLoop] at h
    split at h
    · cases h
    have hinj' : ∀ (j1 j2 : Nat) (s1 s2 : Species α), rest[j1]? = some s1 →
        rest[j2]? = some s2 → s1.Key = s2.Key → j1 = j2 := by
      intro j1 j2 s1 s2 h1 h2 he
      have := hinj (j1 + 1) (j2 + 1) s1 s2 (by simpa using h1) (by simpa using h2) he
      omega
    have hhead : ∀ s ∈ rest, s.Key ≠ sp.Key := by
      intro s hs he
      obtain ⟨n, hn⟩ := List.mem_iff_getElem?.mp hs
      have := hinj (n + 1) 0 s sp (by simpa using hn) (by simp) he
      omega
    rw [ih (id + 1) _ r h hinj' k v]
    constructor
    · rintro (⟨j, s, hj, hs, hv⟩ | ⟨hno, hb⟩)
      · left
        exact ⟨j + 1, s, by simpa using hj, hs, by rw [hv]; congr 1; omega⟩
      · by_cases hke : k = sp.Key
        · left
          simp only [hke, if_true, Option.some.injEq] at hb
          exact ⟨0, sp, by simp, hke.symm, by rw [← hb]; simp⟩
        · right
          simp only [hke, if_false] at hb
          refine ⟨?_, hb⟩
          intro s hs
          rcases List.mem_cons.mp hs with rfl | hs
          · exact fun he => hke he.symm
          · exact hno s hs
    · rintro (⟨j, s, hj, hs, hv⟩ | ⟨hno, hb⟩)
      · cases j with
        | zero =>
          simp only [List.getElem?_cons_zero, Option.some.injEq] at hj
          subst hj
          right
          refine ⟨fun s' hs' => hs ▸ hhead s' hs', ?_⟩
          simp [← hs, hv]
        | succ j =>
          left
          exact ⟨j, s, by simpa using hj, hs, by rw [hv]; congr 1; omega⟩
      · right
        refine ⟨fun s hs => hno s (List.mem_cons_of_mem _ hs), ?_⟩
        have : k ≠ sp.Key := fun he => hno sp (List.mem_cons_self _ _) he.symm
        simpa [this] using hb

theorem dense_length (ids : List Int) (m : Nat) (hnd : ids.Nodup)
    (hin : ∀ a ∈ ids, 0 ≤ a ∧ a < m) (hall : ∀ j : Nat, j < m → (j : Int) ∈ ids) :
    ids.length = m := by
  have hp : ids.Perm ((List.range m).map (fun j : Nat => (j : Int))) := by
    rw [List.perm_ext_iff_of_nodup hnd
      ((List.nodup_range m).map (fun a b h => by exact_mod_cast h))]
    intro a
    constructor
    · intro ha
      obtain ⟨h0, h1⟩ := hin a ha
      exact List.mem_map.mpr ⟨a.toNat, List.mem_range.mpr (by omega), by omega⟩
    · intro ha
      obtain ⟨j, hj, rfl⟩ := List.mem_map.mp ha
      exact hall j (List.mem_range.mp hj)
  rw [hp.length_eq]
  simp

/-- The steps a successful load went through. -/
theorem load_ok_steps [Zero α] {allocLimit : Nat} (arr : List (SpeciesJSON α))
    (reg : Registry α) (h : LoadRegistryFromJSON allocLimit arr = .ok reg) :
    ∃ st : ScanState, arr.length ≠ 0 ∧
      scanLoop arr 0
        { maxId := -1, ids := [], seenKey := fun _ => false, seenId := fun _ => false }
          = .ok st ∧
      ¬ ((allocLimit : Int) < st.maxId + 1 ∨ 9223372036854775808 ≤ st.maxId + 1) ∧
      fillLoop arr 0 st.ids (List.replicate (st.maxId + 1).toNat Species.zero)
        = .ok reg.byId ∧
      indexLoop reg.byId 0 (fun _ => none) = .ok reg.byKey := by
  unfold LoadRegistryFromJSON at h
  split at h
  · cases h
  rename_i hlen
  split at h
  · cases h
  rename_i st hscan
  split at h
  · cases h
  rename_i hfit
  split at h
  · cases h
  rename_i byId hfill
  split at h
  · cases h
  rename_i byKey hindex
  simp only [LoadResult.ok.injEq] at h
  subst h
  exact ⟨st, hlen, hscan, hfit, hfill, hindex⟩

/-- What a successful load establishes about its input and its result. -/
theorem load_ok_char [Zero α] {allocLimit : Nat} (arr : List (SpeciesJSON α))
    (reg : Registry α) (h : LoadRegistryFromJSON allocLimit arr = .ok reg) :
    arr ≠ [] ∧ (∀ d ∈ arr, 0 ≤ d.Id ∧ d.Key ≠ "") ∧
    (arr.map (fun d => d.Id)).Nodup ∧ (arr.map (fun d => d.Key)).Nodup ∧
    reg.byId.length = arr.length ∧
    (∀ d ∈ arr, d.Id < arr.length ∧ reg.byId[d.Id.toNat]? = some (storedSpecies d)) ∧
    (∀ j : Nat, j < arr.length → ∃ d ∈ arr, d.Id = j) ∧
    (∀ (k : String) (v : Int), reg.byKey k = some v ↔
      ∃ (j : Nat) (s : Species α), reg.byId[j]? = some s ∧ s.Key = k ∧ v = (j : Int)) := by
  obtain ⟨st, hlen, hscan, -, hfill, hindex⟩ := load_ok_steps arr reg h
  obtain ⟨byId, byKey⟩ := reg
  simp only at hfill hindex ⊢
  obtain ⟨a, hidnd, hkeynd, hids, hm1, hmax, hmem⟩ := scanLoop_ok arr 0 _ st hscan
  simp only [List.nil_append] at hids
  have hpre : ∀ d ∈ arr, 0 ≤ d.Id ∧
      d.Id.toNat < (List.replicate (st.maxId + 1).toNat (Species.zero : Species α)).length ∧
      ((List.replicate (st.maxId + 1).toNat (Species.zero : Species α)).getD d.Id.toNat
        Species.zero).Key = "" := by
    intro d hd
    have h0 := (a d hd).1
    have h1 := hmax d hd
    refine ⟨h0, by rw [List.length_replicate]; omega, ?_⟩
    rw [List.getD_eq_getElem?_getD, List.getElem?_replicate]
    split <;> rfl
  obtain ⟨byId', e1, e2, e3, e4⟩ := fillLoop_ok arr 0 st.ids _ (by rw [hids]; rfl) hidnd hpre
  rw [e1] at hfill
  simp only [Except.ok.injEq] at hfill
  subst hfill
  rw [List.length_replicate] at e2
  have hkeys := (indexLoop_ok_iff byId' 0 (fun _ => none)).mp ⟨byKey, hindex⟩
  have hcover : ∀ j : Nat, j < (st.maxId + 1).toNat → ∃ d ∈ arr, d.Id = j := by
    intro j hj
    by_contra hne
    have hz : byId'[j]? = some (Species.zero : Species α) := by
      rw [e4 j]
      · rw [List.getElem?_replicate, if_pos hj]
      · intro d hd he
        apply hne
        refine ⟨d, hd, ?_⟩
        have := (a d hd).1
        omega
    have hmemz : (Species.zero : Species α) ∈ byId' := List.mem_iff_getElem?.mpr ⟨j, hz⟩
    exact hkeys _ hmemz rfl
  have hlen' : arr.length = (st.maxId + 1).toNat := by
    have := dense_length (arr.map (fun d => d.Id)) (st.maxId + 1).toNat hidnd
      (by
        intro x hx
        obtain ⟨d, hd, rfl⟩ := List.mem_map.mp hx
        have h0 := (a d hd).1
        have h1 := hmax d hd
        omega)
      (by
        intro j hj
        obtain ⟨d, hd, he⟩ := hcover j hj
        exact List.mem_map.mpr ⟨d, hd, he⟩)
    simpa using this
  have hstored : ∀ (j : Nat) (s : Species α), byId'[j]? = some s →
      ∃ d ∈ arr, d.Id = j ∧ s = storedSpecies d := by
    intro j s hs
    have hj : j < byId'.length := (List.getElem?_eq_some.mp hs).1
    obtain ⟨d, hd, he⟩ := hcover j (by omega)
    refine ⟨d, hd, he, ?_⟩
    have := e3 d hd
    rw [he, Int.toNat_ofNat, hs] at this
    exact (Option.some.inj this)
  refine ⟨?_, fun d hd => ⟨(a d hd).1, (a d hd).2.1⟩, hidnd, hkeynd, by omega,
    ?_, ?_, ?_⟩
  · intro he; apply hlen; simp [he]
  · intro d hd
    have h0 := (a d hd).1
    have h1 := hmax d hd
    exact ⟨by omega, e3 d hd⟩
  · intro j hj
    exact hcover j (by omega)
  · intro k v
    have hinj : ∀ (j1 j2 : Nat) (s1 s2 : Species α), byId'[j1]? = some s1 →
        byId'[j2]? = some s2 → s1.Key = s2.Key → j1 = j2 := by
      intro j1 j2 s1 s2 h1 h2 he
      obtain ⟨d1, hd1, hi1, rfl⟩ := hstored j1 s1 h1
      obtain ⟨d2, hd2, hi2, rfl⟩ := hstored j2 s2 h2
      have : d1 = d2 := List.inj_on_of_nodup_map hkeynd hd1 hd2 he
      subst this
      have : (j1 : Int) = j2 := by rw [← hi1, ← hi2]
      exact_mod_cast this
    rw [indexLoop_lookup byId' 0 _ byKey hindex hinj k v]
    simp

/-- A well-formed list of descriptors loads. -/
theorem load_complete [Zero α] (arr : List (SpeciesJSON α)) (hne : arr ≠ [])
    (hv : ∀ d ∈ arr, 0 ≤ d.Id ∧ d.Key ≠ "")
    (hidnd : (arr.map (fun d => d.Id)).Nodup) (hkeynd : (arr.map (fun d => d.Key)).Nodup)
    (hdense : ∀ i : Int, (∃ d ∈ arr, d.Id = i) ↔ (0 ≤ i ∧ i < arr.length))
    (allocLimit : Nat) (hfit : arr.length ≤ allocLimit)
    (h63 : (arr.length : Int) < 9223372036854775808) :
    ∃ reg, LoadRegistryFromJSON allocLimit arr = .ok reg := by
  have hlen : arr.length ≠ 0 := fun h => hne (List.length_eq_zero.mp h)
  obtain ⟨st, hscan⟩ := scanLoop_complete arr 0
    { maxId := -1, ids := [], seenKey := fun _ => false, seenId := fun _ => false }
    (fun d hd => ⟨(hv d hd).1, (hv d hd).2, rfl, rfl⟩) hidnd hkeynd
  obtain ⟨a, -, -, hids, hm1, hmax, hmem⟩ := scanLoop_ok arr 0 _ st hscan
  simp only [List.nil_append] at hids
  have hpre : ∀ d ∈ arr, 0 ≤ d.Id ∧
      d.Id.toNat < (List.replicate (st.maxId + 1).toNat (Species.zero : Species α)).length ∧
      ((List.replicate (st.maxId + 1).toNat (Species.zero : Species α)).getD d.Id.toNat
        Species.zero).Key = "" := by
    intro d hd
    have h0 := (a d hd).1
    have h1 := hmax d hd
    refine ⟨h0, by rw [List.length_replicate]; omega, ?_⟩
    rw [List.getD_eq_getElem?_getD, List.getElem?_replicate]
    split <;> rfl
  obtain ⟨byId', e1, e2, e3, e4⟩ := fillLoop_ok arr 0 st.ids _ (by rw [hids]; rfl) hidnd hpre
  rw [List.length_replicate] at e2
  have hmaxlt : st.maxId < arr.length := by
    rcases hmem with hm | hm
    · simp only at hm; omega
    · obtain ⟨d, hd, he⟩ := List.mem_map.mp hm
      have := ((hdense d.Id).mp ⟨d, hd, rfl⟩).2
      omega
  have hkeys : ∀ sp ∈ byId', sp.Key ≠ "" := by
    intro sp hsp
    obtain ⟨j, hj⟩ := List.mem_iff_getElem?.mp hsp
    have hjl : j < byId'.length := (List.getElem?_eq_some.mp hj).1
    obtain ⟨d, hd, he⟩ := (hdense (j : Int)).mpr ⟨by omega, by omega⟩
    have := e3 d hd
    rw [he, Int.toNat_ofNat, hj] at this
    rw [Option.some.inj this]
    exact (hv d hd).2
  obtain ⟨byKey, hindex⟩ := (indexLoop_ok_iff byId' 0 (fun _ => none)).mpr hkeys
  refine ⟨{ byId := byId', byKey := byKey }, ?_⟩
  have hnp : ¬ ((allocLimit : Int) < st.maxId + 1 ∨ 9223372036854775808 ≤ st.maxId + 1) := by
    omega
  unfold LoadRegistryFromJSON
  rw [if_neg hlen]
  simp only [hscan, e1, hindex, if_neg hnp]

/-- A successful load fits the allocation limit. -/
theorem load_ok_fits [Zero α] {allocLimit : Nat} (arr : List (SpeciesJSON α))
    (reg : Registry α) (h : LoadRegistryFromJSON allocLimit arr = .ok reg) :
    arr.length ≤ allocLimit ∧ (arr.length : Int) < 9223372036854775808 := by
  obtain ⟨st, hlen, hscan, hfit, hfill, -⟩ := load_ok_steps arr reg h
  obtain ⟨-, -, -, -, h5, -, -, -⟩ := load_ok_char arr reg h
  obtain ⟨a, hidnd, -, hids, -, hmax, -⟩ := scanLoop_ok arr 0 _ st hscan
  simp only [List.nil_append] at hids
  have hpre : ∀ d ∈ arr, 0 ≤ d.Id ∧
      d.Id.toNat < (List.replicate (st.maxId + 1).toNat (Species.zero : Species α)).length ∧
      ((List.replicate (st.maxId + 1).toNat (Species.zero : Species α)).getD d.Id.toNat
        Species.zero).Key = "" := by
    intro d hd
    have h0 := (a d hd).1
    have h1 := hmax d hd
    refine ⟨h0, by rw [List.length_replicate]; omega, ?_⟩
    rw [List.getD_eq_getElem?_getD, List.getElem?_replicate]
    split <;> rfl
  obtain ⟨byId', e1, e2, -, -⟩ := fillLoop_ok arr 0 st.ids _ (by rw [hids]; rfl) hidnd hpre
  rw [e1] at hfill
  simp only [Except.ok.injEq] at hfill
  rw [hfill, List.length_replicate] at e2
  have hne : arr ≠ [] := fun he => hlen (by simp [he])
  have hm0 : 0 ≤ st.maxId := by
    obtain ⟨d, hd⟩ := List.exists_mem_of_ne_nil arr hne
    exact le_trans (a d hd).1 (hmax d hd)
  omega

/-- When the load panics: the id and key checks pass and some id is beyond the
allocation limit, or is the largest `int`. -/
theorem load_panic_iff [Zero α] (allocLimit : Nat) (arr : List (SpeciesJSON α)) :
    LoadRegistryFromJSON allocLimit arr = .panic ↔
      (arr ≠ [] ∧ (∀ d ∈ arr, 0 ≤ d.Id ∧ d.Key ≠ "") ∧
        (arr.map (fun d => d.Id)).Nodup ∧ (arr.map (fun d => d.Key)).Nodup ∧
        ∃ d ∈ arr, (allocLimit : Int) < d.Id + 1 ∨ 9223372036854775808 ≤ d.Id + 1) := by
  constructor
  · intro h
    unfold LoadRegistryFromJSON at h
    split at h
    · cases h
    rename_i hlen
    split at h
    · cases h
    rename_i st hscan
    obtain ⟨a, hidnd, hkeynd, -, -, hmax, hmem⟩ := scanLoop_ok arr 0 _ st hscan
    split at h
    · rename_i hbig
      refine ⟨fun he => hlen (by simp [he]), fun d hd => ⟨(a d hd).1, (a d hd).2.1⟩,
        hidnd, hkeynd, ?_⟩
      rcases hmem with hm | hm
      · simp only at hm
        rw [hm] at hbig
        omega
      · obtain ⟨d, hd, he⟩ := List.mem_map.mp hm
        exact ⟨d, hd, by rw [he]; exact hbig⟩
    · split at h
      · cases h
      · split at h <;> cases h
  · rintro ⟨hne, hv, hidnd, hkeynd, d, hd, hbig⟩
    have hlen : arr.length ≠ 0 := fun h => hne (List.length_eq_zero.mp h)
    obtain ⟨st, hscan⟩ := scanLoop_complete arr 0
      { maxId := -1, ids := [], seenKey := fun _ => false, seenId := fun _ => false }
      (fun d hd => ⟨(hv d hd).1, (hv d hd).2, rfl, rfl⟩) hidnd hkeynd
    obtain ⟨-, -, -, -, -, hmax, -⟩ := scanLoop_ok arr 0 _ st hscan
    have hd' := hmax d hd
    have hb : (allocLimit : Int) < st.maxId + 1 ∨ 9223372036854775808 ≤ st.maxId + 1 := by
      omega
    unfold LoadRegistryFromJSON
    rw [if_neg hlen]
    simp only [hscan, if_pos hb]

theorem GetById_eq [Zero α] (reg : Registry α) (i : Int) (sp : Species α) :
    reg.GetById i = some sp ↔ 0 ≤ i ∧ reg.byId[i.toNat]? = some sp := by
  unfold Registry.GetById
  by_cases h : i < 0 ∨ i ≥ (reg.byId.length : Int)
  · rw [if_pos h]
    constructor
    · intro h'; cases h'
    · rintro ⟨h0, h1⟩
      have := (List.getElem?_eq_some.mp h1).1
      omega
  · rw [if_neg h]
    constructor
    · intro h'; exact ⟨by omega, h'⟩
    · intro h'; exact h'.2

/-- C7 (counterexample). The one descriptor with id `10^15` and key `"a"`, with
the allocation limit of a 64-bit platform (`2^48 / 112` species): the load
panics in `make`, so it neither succeeds nor returns an error. -/
theorem LoadRegistryFromJSON_large_id_panics :
    LoadRegistryFromJSON 2513169434916
        [(⟨1000000000000000, "a", "A", 1, 1, 2, 1, [], ""⟩ : SpeciesJSON ℚ)] = .panic ∧
    (¬ ∃ e, LoadRegistryFromJSON 2513169434916
        [(⟨1000000000000000, "a", "A", 1, 1, 2, 1, [], ""⟩ : SpeciesJSON ℚ)] = .error e) ∧
    (¬ ∃ reg, LoadRegistryFromJSON 2513169434916
        [(⟨1000000000000000, "a", "A", 1, 1, 2, 1, [], ""⟩ : SpeciesJSON ℚ)] = .ok reg) := by
  have h : LoadRegistryFromJSON 2513169434916
      [(⟨1000000000000000, "a", "A", 1, 1, 2, 1, [], ""⟩ : SpeciesJSON ℚ)] = .panic := rfl
  refine ⟨h, ?_, ?_⟩
  · rintro ⟨e, he⟩
    rw [h] at he
    cases he
  · rintro ⟨reg, hr⟩
    rw [h] at hr
    cases hr

/-- C7 (amended). With `allocLimit` the largest slice length `make` can allocate:
the load of a list of `n` descriptors succeeds exactly when the list is
non-empty, no id is negative, no id occurs twice, no key is empty, no key occurs
twice, the ids are exactly `0 .. n-1` and `n` is within the limit; it panics
exactly when the list is non-empty, passes the id and key checks and has an id
at or beyond the limit (or the largest `int`); it returns an error, and no
registry, exactly in every other case. Changing the weights, to values below 1
or any other, changes neither whether the load succeeds nor whether it returns
an error. -/
theorem LoadRegistryFromJSON_ok_iff [Zero α] (allocLimit : Nat) (arr : List (SpeciesJSON α)) :
    ((∃ reg, LoadRegistryFromJSON allocLimit arr = .ok reg) ↔
      (arr ≠ [] ∧ (∀ d ∈ arr, 0 ≤ d.Id) ∧ (arr.map (fun d => d.Id)).Nodup ∧
        (∀ d ∈ arr, d.Key ≠ "") ∧ (arr.map (fun d => d.Key)).Nodup ∧
        (∀ i : Int, (∃ d ∈ arr, d.Id = i) ↔ (0 ≤ i ∧ i < arr.length)) ∧
        arr.length ≤ allocLimit ∧ (arr.length : Int) < 9223372036854775808)) ∧
    (LoadRegistryFromJSON allocLimit arr = .panic ↔
      (arr ≠ [] ∧ (∀ d ∈ arr, 0 ≤ d.Id ∧ d.Key ≠ "") ∧
        (arr.map (fun d => d.Id)).Nodup ∧ (arr.map (fun d => d.Key)).Nodup ∧
        ∃ d ∈ arr, (allocLimit : Int) < d.Id + 1 ∨ 9223372036854775808 ≤ d.Id + 1)) ∧
    ((∃ e, LoadRegistryFromJSON allocLimit arr = .error e) ↔
      (¬ (arr ≠ [] ∧ (∀ d ∈ arr, 0 ≤ d.Id) ∧ (arr.map (fun d => d.Id)).Nodup ∧
        (∀ d ∈ arr, d.Key ≠ "") ∧ (arr.map (fun d => d.Key)).Nodup ∧
        (∀ i : Int, (∃ d ∈ arr, d.Id = i) ↔ (0 ≤ i ∧ i < arr.length)) ∧
        arr.length ≤ allocLimit ∧ (arr.length : Int) < 9223372036854775808) ∧
       ¬ (arr ≠ [] ∧ (∀ d ∈ arr, 0 ≤ d.Id ∧ d.Key ≠ "") ∧
        (arr.map (fun d => d.Id)).Nodup ∧ (arr.map (fun d => d.Key)).Nodup ∧
        ∃ d ∈ arr, (allocLimit : Int) < d.Id + 1 ∨ 9223372036854775808 ≤ d.Id + 1))) ∧
    (∀ f : SpeciesJSON α → Int,
      ((∃ reg, LoadRegistryFromJSON allocLimit
          (arr.map (fun d => { d with Weight := f d })) = .ok reg) ↔
        ∃ reg, LoadRegistryFromJSON allocLimit arr = .ok reg) ∧
      ((∃ e, LoadRegistryFromJSON allocLimit
          (arr.map (fun d => { d with Weight := f d })) = .error e) ↔
        ∃ e, LoadRegistryFromJSON allocLimit arr = .error e)) := by
  have main : ∀ arr : List (SpeciesJSON α),
      (∃ reg, LoadRegistryFromJSON allocLimit arr = .ok reg) ↔
      (arr ≠ [] ∧ (∀ d ∈ arr, 0 ≤ d.Id) ∧ (arr.map (fun d => d.Id)).Nodup ∧
        (∀ d ∈ arr, d.Key ≠ "") ∧ (arr.map (fun d => d.Key)).Nodup ∧
        (∀ i : Int, (∃ d ∈ arr, d.Id = i) ↔ (0 ≤ i ∧ i < arr.length)) ∧
        arr.length ≤ allocLimit ∧ (arr.length : Int) < 9223372036854775808) := by
    intro arr
    constructor
    · rintro ⟨reg, h⟩
      obtain ⟨h1, h2, h3, h4, h5, h6, h7, -⟩ := load_ok_char arr reg h
      obtain ⟨hf1, hf2⟩ := load_ok_fits arr reg h
      refine ⟨h1, fun d hd => (h2 d hd).1, h3, fun d hd => (h2 d hd).2, h4, fun i => ?_,
        hf1, hf2⟩
      constructor
      · rintro ⟨d, hd, rfl⟩
        exact ⟨(h2 d hd).1, (h6 d hd).1⟩
      · rintro ⟨h0, hlt⟩
        obtain ⟨d, hd, he⟩ := h7 i.toNat (by omega)
        exact ⟨d, hd, by omega⟩
    · rintro ⟨h1, h2, h3, h4, h5, h6, h7, h8⟩
      exact load_complete arr h1 (fun d hd => ⟨h2 d hd, h4 d hd⟩) h3 h5 h6 allocLimit h7 h8
  have err : ∀ arr : List (SpeciesJSON α),
      (∃ e, LoadRegistryFromJSON allocLimit arr = .error e) ↔
        (¬ (∃ reg, LoadRegistryFromJSON allocLimit arr = .ok reg) ∧
          ¬ LoadRegistryFromJSON allocLimit arr = .panic) := by
    intro arr
    cases h : LoadRegistryFromJSON allocLimit arr with
    | ok reg => simp
    | error e => simp
    | panic => simp
  have mapok : ∀ f : SpeciesJSON α → Int,
      (∃ reg, LoadRegistryFromJSON allocLimit
          (arr.map (fun d => { d with Weight := f d })) = .ok reg) ↔
        ∃ reg, LoadRegistryFromJSON allocLimit arr = .ok reg := by
    intro f
    rw [main, main]
    simp only [ne_eq, List.map_eq_nil_iff, List.mem_map, forall_exists_index, and_imp,
      forall_apply_eq_imp_iff₂, List.map_map, List.length_map, exists_exists_and_eq_and]
    rfl
  have mappanic : ∀ f : SpeciesJSON α → Int,
      LoadRegistryFromJSON allocLimit (arr.map (fun d => { d with Weight := f d })) = .panic ↔
        LoadRegistryFromJSON allocLimit arr = .panic := by
    intro f
    rw [load_panic_iff, load_panic_iff]
    simp only [ne_eq, List.map_eq_nil_iff, List.mem_map, forall_exists_index, and_imp,
      forall_apply_eq_imp_iff₂, List.map_map, exists_exists_and_eq_and]
    rfl
  refine ⟨main arr, load_panic_iff allocLimit arr, ?_, fun f => ⟨mapok f, ?_⟩⟩
  · rw [err, main, load_panic_iff]
  · rw [err, err, mapok, mappanic]

/-- C8. For a registry loaded from `n` descriptors: `Count` is `n`; `GetById i`
succeeds exactly when `0 ≤ i < n`, and the species it returns has `Id = i`;
`IdByKey k` returns `i` exactly when the species at id `i` has key `k`, so it
returns `i` on the key of the species at `i` and fails on a key no descriptor
has. -/
theorem registry_lookup_spec [Zero α] (allocLimit : Nat) (arr : List (SpeciesJSON α))
    (reg : Registry α) (h : LoadRegistryFromJSON allocLimit arr = .ok reg) :
    reg.Count = arr.length ∧
    (∀ i : Int, (∃ sp, reg.GetById i = some sp) ↔ (0 ≤ i ∧ i < arr.length)) ∧
    (∀ (i : Int) (sp : Species α), reg.GetById i = some sp → sp.Id = i) ∧
    (∀ (k : String) (i : Int),
      reg.IdByKey k = some i ↔ ∃ sp, reg.GetById i = some sp ∧ sp.Key = k) ∧
    (∀ (i : Int) (sp : Species α),
      reg.GetById i = some sp → reg.IdByKey sp.Key = some i) ∧
    (∀ k : String, (∀ d ∈ arr, d.Key ≠ k) → reg.IdByKey k = none) := by
  obtain ⟨h1, h2, h3, h4, h5, h6, h7, h8⟩ := load_ok_char arr reg h
  have hstored : ∀ (i : Int) (sp : Species α), reg.GetById i = some sp →
      ∃ d ∈ arr, d.Id = i ∧ sp = storedSpecies d := by
    intro i sp hsp
    obtain ⟨h0, hget⟩ := (GetById_eq reg i sp).mp hsp
    have hlt := (List.getElem?_eq_some.mp hget).1
    obtain ⟨d, hd, he⟩ := h7 i.toNat (by omega)
    have := (h6 d hd).2
    rw [he, Int.toNat_ofNat, hget] at this
    exact ⟨d, hd, by omega, Option.some.inj this⟩
  have hkey : ∀ (k : String) (i : Int),
      reg.IdByKey k = some i ↔ ∃ sp, reg.GetById i = some sp ∧ sp.Key = k := by
    intro k i
    unfold Registry.IdByKey
    rw [h8]
    constructor
    · rintro ⟨j, s, hj, hs, rfl⟩
      exact ⟨s, (GetById_eq reg _ s).mpr ⟨by omega, by simpa using hj⟩, hs⟩
    · rintro ⟨sp, hsp, hs⟩
      obtain ⟨h0, hget⟩ := (GetById_eq reg i sp).mp hsp
      exact ⟨i.toNat, sp, hget, hs, by omega⟩
  refine ⟨by unfold Registry.Count; rw [h5], fun i => ?_, ?_, hkey, ?_, ?_⟩
  · constructor
    · rintro ⟨sp, hsp⟩
      obtain ⟨h0, hget⟩ := (GetById_eq reg i sp).mp hsp
      have hlt := (List.getElem?_eq_some.mp hget).1
      exact ⟨h0, by omega⟩
    · rintro ⟨h0, hlt⟩
      have hl : i.toNat < reg.byId.length := by omega
      exact ⟨reg.byId[i.toNat], (GetById_eq reg i _).mpr
        ⟨h0, List.getElem?_eq_some.mpr ⟨hl, rfl⟩⟩⟩
  · intro i sp hsp
    obtain ⟨d, hd, he, rfl⟩ := hstored i sp hsp
    exact he
  · intro i sp hsp
    exact (hkey sp.Key i).mpr ⟨sp, hsp, rfl⟩
  · intro k hk
    cases hr : reg.IdByKey k with
    | none => rfl
    | some i =>
      obtain ⟨sp, hsp, hs⟩ := (hkey k i).mp hr
      obtain ⟨d, hd, he, rfl⟩ := hstored i sp hsp
      exact absurd hs (hk d hd)

theorem registry_lookup_spec_witness :
    ∃ reg : Registry ℚ,
      LoadRegistryFromJSON 1000
        [⟨1, "whale", "Whale", 1, 500, 2000, 3, [], ""⟩,
         ⟨0, "minnow", "Minnow", 100, 2, 10, 1, [], "minnow.png"⟩] = .ok reg ∧
      reg.Count = 2 ∧ reg.IdByKey "whale" = some 1 :=
  ⟨_, rfl,
    (registry_lookup_spec 1000
      [⟨1, "whale", "Whale", 1, 500, 2000, 3, [], ""⟩,
       ⟨0, "minnow", "Minnow", 100, 2, 10, 1, [], "minnow.png"⟩] _ rfl).1,
    rfl⟩

end registry

section picker
variable {α : Type}

theorem cumulativeWeight_zero (all : List (Species α)) : cumulativeWeight all 0 = 0 := by
  simp [cumulativeWeight]

theorem cumulativeWeight_succ (all : List (Species α)) (k : Nat) (sp : Species α)
    (h : all[k]? = some sp) :
    cumulativeWeight all (k + 1) = cumulativeWeight all k + sp.Weight := by
  unfold cumulativeWeight
  have hk : k < all.length := (List.getElem?_eq_some.mp h).1
  have hs : all[k] = sp := (List.getElem?_eq_some.mp h).2
  rw [List.take_succ, h]
  simp

theorem cumulativeWeight_cons (sp : Species α) (rest : List (Species α)) (k : Nat) :
    cumulativeWeight (sp :: rest) (k + 1) = sp.Weight + cumulativeWeight rest k := by
  simp [cumulativeWeight]

theorem cumulativeWeight_all (all : List (Species α)) :
    cumulativeWeight all all.length = (all.map (fun sp => sp.Weight)).sum := by
  simp [cumulativeWeight]

theorem cumulativeWeight_lt (all : List (Species α)) (hw : ∀ sp ∈ all, 1 ≤ sp.Weight)
    (k : Nat) (hk : k < all.length) :
    cumulativeWeight all k < cumulativeWeight all (k + 1) := by
  have hsp : all[k]? = some all[k] := List.getElem?_eq_some.mpr ⟨hk, rfl⟩
  rw [cumulativeWeight_succ all k _ hsp]
  have := hw all[k] (List.getElem_mem _)
  omega

theorem cumulativeWeight_mono (all : List (Species α)) (hw : ∀ sp ∈ all, 1 ≤ sp.Weight)
    (j k : Nat) (hjk : j ≤ k) (hk : k ≤ all.length) :
    cumulativeWeight all j ≤ cumulativeWeight all k := by
  induction k with
  | zero =>
    have : j = 0 := by omega
    subst this
    exact le_refl _
  | succ k ih =>
    rcases Nat.lt_or_ge j (k + 1) with h | h
    · have h1 := ih (by omega) (by omega)
      have h2 := cumulativeWeight_lt all hw k (by omega)
      omega
    · have : j = k + 1 := by omega
      subst this
      exact le_refl _

theorem cumulativeLoop_spec (all : List (Species α)) (hw : ∀ sp ∈ all, 1 ≤ sp.Weight) :
    ∀ t : Int, 0 ≤ t → t + cumulativeWeight all all.length < 9223372036854775808 →
      (cumulativeLoop all t).1.length = all.length ∧
      (cumulativeLoop all t).2 = t + cumulativeWeight all all.length ∧
      ∀ i : Nat, i < all.length →
        ((cumulativeLoop all t).1)[i]? = some (t + cumulativeWeight all (i + 1)) := by
  induction all with
  | nil =>
    intro t _ _
    simp [cumulativeLoop, cumulativeWeight]
  | cons sp rest ih =>
    intro t ht hfit
    have h1 : ¬ sp.Weight < 1 := not_lt.mpr (hw sp (List.mem_cons_self _ _))
    have hw1 := hw sp (List.mem_cons_self _ _)
    have hrest : 0 ≤ cumulativeWeight rest rest.length := by
      have := cumulativeWeight_mono rest (fun s hs => hw s (List.mem_cons_of_mem _ hs))
        0 rest.length (Nat.zero_le _) (le_refl _)
      rwa [cumulativeWeight_zero] at this
    have hfit' : t + (sp.Weight + cumulativeWeight rest rest.length) < 9223372036854775808 := by
      have := cumulativeWeight_cons sp rest rest.length
      rw [List.length_cons, this] at hfit
      exact hfit
    have hwrap : wrapInt64 (t + sp.Weight) = t + sp.Weight :=
      wrapInt64_eq _ (by omega) (by omega)
    obtain ⟨a, b, c⟩ := ih (fun s hs => hw s (List.mem_cons_of_mem _ hs)) (t + sp.Weight)
      (by omega) (by omega)
    simp only [cumulativeLoop, h1, if_false, List.length_cons, hwrap]
    refine ⟨by rw [a], ?_, ?_⟩
    · rw [b, cumulativeWeight_cons]; ring
    · intro i hi
      cases i with
      | zero => simp [cumulativeWeight]
      | succ i =>
        rw [List.getElem?_cons_succ, c i (by omega), cumulativeWeight_cons]
        congr 1
        ring

theorem cumulativeLoop_zero (all : List (Species α)) (hw : ∀ sp ∈ all, 1 ≤ sp.Weight)
    (hfit : cumulativeWeight all all.length < 9223372036854775808) :
    (cumulativeLoop all 0).1.length = all.length ∧
    (cumulativeLoop all 0).2 = 0 + cumulativeWeight all all.length ∧
    ∀ i : Nat, i < all.length →
      ((cumulativeLoop all 0).1)[i]? = some (0 + cumulativeWeight all (i + 1)) :=
  cumulativeLoop_spec all hw 0 (le_refl 0) (by omega)

theorem PickId_none_of_nonpos (p : Picker α) (h : p.totalWeight ≤ 0) (d : Nat) :
    p.PickId d = none := by
  unfold Picker.PickId Intn
  rw [if_pos h]

theorem searchLoop_spec (cum : List Int) (g : Nat → Int) (roll : Int)
    (hc : ∀ j : Nat, j < cum.length → cum[j]? = some (g j))
    (hmono : ∀ j k : Nat, j ≤ k → k < cum.length → g j ≤ g k) :
    ∀ (fuel : Nat) (lo hi : Int), 0 ≤ lo → lo ≤ hi → hi < cum.length → hi - lo ≤ fuel →
      (∀ j : Nat, (j : Int) < lo → g j ≤ roll) → roll < g hi.toNat →
      ∃ r : Int, searchLoop cum roll fuel lo hi = some r ∧ lo ≤ r ∧ r ≤ hi ∧
        roll < g r.toNat ∧ ∀ j : Nat, (j : Int) < r → g j ≤ roll := by
  intro fuel
  induction fuel with
  | zero =>
    intro lo hi h0 hle hlen hfuel hlow hhigh
    have : lo = hi := by omega
    subst this
    exact ⟨lo, by simp [searchLoop], le_refl _, le_refl _, hhigh, hlow⟩
  | succ fuel ih =>
    intro lo hi h0 hle hlen hfuel hlow hhigh
    by_cases hlt : lo < hi
    · have hmid0 : ¬ (lo + hi) / 2 < 0 := by omega
      have hmidlen : ((lo + hi) / 2).toNat < cum.length := by omega
      simp only [searchLoop, hlt, if_true, hmid0, if_false, hc _ hmidlen]
      by_cases hr : roll < g ((lo + hi) / 2).toNat
      · simp only [hr, if_true]
        obtain ⟨r, e1, e2, e3, e4, e5⟩ :=
          ih lo ((lo + hi) / 2) h0 (by omega) (by omega) (by omega) hlow hr
        exact ⟨r, e1, e2, by omega, e4, e5⟩
      · simp only [hr, if_false]
        have hlow' : ∀ j : Nat, (j : Int) < (lo + hi) / 2 + 1 → g j ≤ roll := by
          intro j hj
          have := hmono j ((lo + hi) / 2).toNat (by omega) hmidlen
          omega
        obtain ⟨r, e1, e2, e3, e4, e5⟩ :=
          ih ((lo + hi) / 2 + 1) hi (by omega) (by omega) hlen (by omega) hlow' hhigh
        exact ⟨r, e1, by omega, e3, e4, e5⟩
    · have : lo = hi := by omega
      subst this
      exact ⟨lo, by simp [searchLoop], le_refl _, le_refl _, hhigh, hlow⟩

theorem load_weights [Zero α] {allocLimit : Nat} (arr : List (SpeciesJSON α))
    (reg : Registry α) (h : LoadRegistryFromJSON allocLimit arr = .ok reg) : ∀ sp ∈ reg.byId, 1 ≤ sp.Weight := by
  obtain ⟨-, -, -, -, h5, h6, h7, -⟩ := load_ok_char arr reg h
  intro sp hsp
  obtain ⟨j, hj⟩ := List.mem_iff_getElem?.mp hsp
  have hjl : j < reg.byId.length := (List.getElem?_eq_some.mp hj).1
  obtain ⟨d, hd, he⟩ := h7 j (by omega)
  have := (h6 d hd).2
  rw [he, Int.toNat_ofNat, hj] at this
  rw [Option.some.inj this]
  unfold storedSpecies
  simp only
  split <;> omega

theorem PickId_search [LinearOrderedField α] (reg : Registry α)
    (hw : ∀ sp ∈ reg.byId, 1 ≤ sp.Weight)
    (hfit : cumulativeWeight reg.byId reg.byId.length < 9223372036854775808) (d : Nat)
    (hd : (d : Int) < (NewPicker reg).totalWeight) :
    ∃ i : Int, (NewPicker reg).PickId d = some i ∧ 0 ≤ i ∧ i < reg.byId.length ∧
      (d : Int) < cumulativeWeight reg.byId (i.toNat + 1) ∧
      ∀ j : Nat, j < i.toNat → cumulativeWeight reg.byId (j + 1) ≤ d := by
  obtain ⟨hlen, htot, hget⟩ := cumulativeLoop_zero reg.byId hw hfit
  have hT : (NewPicker reg).totalWeight = cumulativeWeight reg.byId reg.byId.length := by
    show (cumulativeLoop reg.byId 0).2 = _
    rw [htot, zero_add]
  have hcum : (NewPicker reg).cumulative = (cumulativeLoop reg.byId 0).1 := rfl
  rw [hT] at hd
  have hpos : 0 < reg.byId.length := by
    rcases Nat.eq_zero_or_pos reg.byId.length with h0 | h0
    · rw [h0, cumulativeWeight_zero] at hd
      omega
    · exact h0
  have hroll : Intn d (NewPicker reg).totalWeight = some (d : Int) := by
    unfold Intn
    rw [hT, if_neg (by omega), Int.emod_eq_of_lt (by omega) hd]
  obtain ⟨r, e1, e2, e3, e4, e5⟩ := searchLoop_spec (NewPicker reg).cumulative
    (fun j => cumulativeWeight reg.byId (j + 1)) (d : Int)
    (by
      intro j hj
      rw [hcum] at hj ⊢
      rw [hget j (by omega), zero_add])
    (by
      intro j k hjk hk
      rw [hcum, hlen] at hk
      exact cumulativeWeight_mono reg.byId hw (j + 1) (k + 1) (by omega) (by omega))
    (NewPicker reg).cumulative.length 0 (((NewPicker reg).cumulative.length : Int) - 1)
    (le_refl _) (by rw [hcum, hlen]; omega) (by omega) (by omega)
    (by intro j hj; omega)
    (by
      rw [hcum, hlen]
      have : (((reg.byId.length : Int) - 1).toNat + 1) = reg.byId.length := by omega
      simp only [this]
      exact hd)
  refine ⟨r, ?_, e2, ?_, e4, fun j hj => e5 j (by omega)⟩
  · unfold Picker.PickId
    rw [hroll]
    exact e1
  · rw [hcum, hlen] at e3
    omega

/-- C1 (counterexample). The catalogue of two species of weight `2^62` loads; the
sum of the weights wraps to `totalWeight = -2^63`, `PickId` panics in `Intn` for
every output of the generator, and no draw returns species `0`, whose weight is
`2^62`. -/
theorem PickId_total_weight_overflow :
    ∃ reg : Registry ℚ,
      LoadRegistryFromJSON 1000
        [⟨0, "a", "A", 4611686018427387904, 1, 2, 1, [], ""⟩,
         ⟨1, "b", "B", 4611686018427387904, 1, 2, 1, [], ""⟩] = .ok reg ∧
      (NewPicker reg).totalWeight = -9223372036854775808 ∧
      (∀ d : Nat, (NewPicker reg).PickId d = none) ∧
      (reg.GetById 0).map (fun sp => sp.Weight) = some 4611686018427387904 ∧
      (((Finset.range (NewPicker reg).totalWeight.toNat).filter
        (fun d => (NewPicker reg).PickId d = some 0)).card : Int) ≠ 4611686018427387904 := by
  refine ⟨_, rfl, rfl, fun d => PickId_none_of_nonpos _ (by decide) d, rfl, ?_⟩
  have hT : ∀ p : Picker ℚ, p.totalWeight = -9223372036854775808 →
      (((Finset.range p.totalWeight.toNat).filter
        (fun d => p.PickId d = some 0)).card : Int) ≠ 4611686018427387904 := by
    intro p hp
    rw [hp]
    simp
  exact hT _ rfl

/-- C1 (amended). For a registry produced by a successful load whose weights
sum to less than `2^63`, and the picker built from it: `totalWeight` is the sum
of the weights and entry `i` of the table is the cumulative weight of the
species `0 .. i`; for every draw `d` of `[0, totalWeight)`, `PickId` returns an id
`i` that `GetById` finds, whose cumulative weight exceeds `d` while that of every
earlier species does not; and for every species `i`, exactly `weight_i` of the
draws of `[0, totalWeight)` return `i`. -/
theorem PickId_spec [LinearOrderedField α] (allocLimit : Nat) (arr : List (SpeciesJSON α))
    (reg : Registry α) (h : LoadRegistryFromJSON allocLimit arr = .ok reg)
    (hsum : (reg.All.map (fun sp => sp.Weight)).sum < 9223372036854775808) :
    (NewPicker reg).totalWeight = (reg.All.map (fun sp => sp.Weight)).sum ∧
    (∀ (i : Int) (sp : Species α), reg.GetById i = some sp →
      (NewPicker reg).cumulative[i.toNat]? = some (cumulativeWeight reg.All (i.toNat + 1))) ∧
    (∀ d : Nat, (d : Int) < (NewPicker reg).totalWeight →
      ∃ i : Int, (NewPicker reg).PickId d = some i ∧
        (∃ sp, reg.GetById i = some sp) ∧
        (d : Int) < cumulativeWeight reg.All (i.toNat + 1) ∧
        ∀ j : Nat, j < i.toNat → cumulativeWeight reg.All (j + 1) ≤ d) ∧
    (∀ (i : Int) (sp : Species α), reg.GetById i = some sp →
      (((Finset.range (NewPicker reg).totalWeight.toNat).filter
        (fun d => (NewPicker reg).PickId d = some i)).card : Int) = sp.Weight) := by
  have hfit : cumulativeWeight reg.byId reg.byId.length < 9223372036854775808 := by
    rw [cumulativeWeight_all]; exact hsum
  have hw := load_weights arr reg h
  obtain ⟨hlen, htot, hget⟩ := cumulativeLoop_zero reg.byId hw hfit
  have hT : (NewPicker reg).totalWeight = cumulativeWeight reg.byId reg.byId.length := by
    show (cumulativeLoop reg.byId 0).2 = _
    rw [htot, zero_add]
  have hvalid : ∀ i : Int, 0 ≤ i → i < reg.byId.length → ∃ sp, reg.GetById i = some sp := by
    intro i h0 h1
    have hl : i.toNat < reg.byId.length := by omega
    exact ⟨reg.byId[i.toNat], (GetById_eq reg i _).mpr
      ⟨h0, List.getElem?_eq_some.mpr ⟨hl, rfl⟩⟩⟩
  refine ⟨?_, ?_, ?_, ?_⟩
  · rw [hT, cumulativeWeight_all]; rfl
  · intro i sp hsp
    obtain ⟨h0, hg⟩ := (GetById_eq reg i sp).mp hsp
    have hl := (List.getElem?_eq_some.mp hg).1
    show ((cumulativeLoop reg.byId 0).1)[i.toNat]? = _
    rw [hget _ hl, zero_add]
    rfl
  · intro d hd
    obtain ⟨i, e1, e2, e3, e4, e5⟩ := PickId_search reg hw hfit d hd
    exact ⟨i, e1, hvalid i e2 e3, e4, e5⟩
  · intro i sp hsp
    obtain ⟨h0, hg⟩ := (GetById_eq reg i sp).mp hsp
    have hl := (List.getElem?_eq_some.mp hg).1
    have hsucc := cumulativeWeight_succ reg.byId i.toNat sp hg
    have hwsp : 1 ≤ sp.Weight := hw sp (List.mem_iff_getElem?.mpr ⟨_, hg⟩)
    have hG0 : 0 ≤ cumulativeWeight reg.byId i.toNat := by
      have := cumulativeWeight_mono reg.byId hw 0 i.toNat (by omega) (by omega)
      rwa [cumulativeWeight_zero] at this
    have hGT : cumulativeWeight reg.byId (i.toNat + 1) ≤ (NewPicker reg).totalWeight := by
      rw [hT]
      exact cumulativeWeight_mono reg.byId hw _ _ (by omega) (le_refl _)
    have hset : (Finset.range (NewPicker reg).totalWeight.toNat).filter
        (fun d => (NewPicker reg).PickId d = some i)
        = Finset.Ico (cumulativeWeight reg.byId i.toNat).toNat
            (cumulativeWeight reg.byId (i.toNat + 1)).toNat := by
      ext d
      simp only [Finset.mem_filter, Finset.mem_range, Finset.mem_Ico]
      constructor
      · rintro ⟨hd, hp⟩
        obtain ⟨r, e1, e2, e3, e4, e5⟩ := PickId_search reg hw hfit d (by omega)
        rw [hp] at e1
        cases e1
        refine ⟨?_, by omega⟩
        rcases Nat.eq_zero_or_pos i.toNat with hz | hz
        · rw [hz, cumulativeWeight_zero]; omega
        · have := e5 (i.toNat - 1) (by omega)
          rw [Nat.sub_add_cancel hz] at this
          omega
      · rintro ⟨hlo, hhi⟩
        have hdT : (d : Int) < (NewPicker reg).totalWeight := by omega
        refine ⟨by omega, ?_⟩
        obtain ⟨r, e1, e2, e3, e4, e5⟩ := PickId_search reg hw hfit d hdT
        rw [e1]
        congr 1
        rcases lt_trichotomy r i with hlt | heq | hgt
        · have := cumulativeWeight_mono reg.byId hw (r.toNat + 1) i.toNat (by omega) (by omega)
          omega
        · exact heq
        · have := e5 i.toNat (by omega)
          omega
    rw [hset, Nat.card_Ico]
    change ((_ - _ : Nat) : Int) = sp.Weight
    omega

theorem PickId_spec_witness :
    ∃ reg : Registry ℚ,
      LoadRegistryFromJSON 1000
        [⟨0, "minnow", "Minnow", 100, 2, 10, 1, [], "minnow.png"⟩,
         ⟨1, "whale", "Whale", 1, 500, 2000, 3, [], ""⟩] = .ok reg ∧
      (NewPicker reg).totalWeight = 101 ∧
      (NewPicker reg).PickId 99 = some 0 ∧ (NewPicker reg).PickId 100 = some 1 :=
  ⟨_, rfl,
    ((PickId_spec 1000
      [⟨0, "minnow", "Minnow", 100, 2, 10, 1, [], "minnow.png"⟩,
       ⟨1, "whale", "Whale", 1, 500, 2000, 3, [], ""⟩] _ rfl (by decide)).1).trans rfl,
    rfl, rfl⟩

end picker

section tier
variable {α : Type}

/-- C9 (counterexample). The catalogue of two species of weight `2^62` loads; the
sum of the weights wraps, `meanWeight` is negative and `SpeciesTier 0` is Mythic,
where `weight / (sum of the weights / speciesCount)` is `1`, the ratio of
Uncommon. -/
theorem SpeciesTier_total_weight_overflow :
    ∃ reg : Registry ℚ,
      LoadRegistryFromJSON 1000
        [⟨0, "a", "A", 4611686018427387904, 1, 2, 1, [], ""⟩,
         ⟨1, "b", "B", 4611686018427387904, 1, 2, 1, [], ""⟩] = .ok reg ∧
      (NewPicker reg).SpeciesTier 0 = TierMythic ∧ TierMythic ≠ TierUncommon ∧
      (reg.GetById 0).map (fun sp => sp.Weight) = some 4611686018427387904 ∧
      ((4611686018427387904 : Int) : ℚ)
        / ((((reg.All.map (fun s => s.Weight)).sum : Int) : ℚ) / ((reg.Count : Int) : ℚ)) = 1 := by
  have key : ∀ (p : Picker ℚ) (sp : Species ℚ), p.reg.GetById 0 = some sp →
      (sp.Weight : ℚ) / p.meanWeight < 0.05 → p.SpeciesTier 0 = TierMythic := by
    intro p sp hsp hr
    unfold Picker.SpeciesTier
    rw [hsp]
    simp only
    rw [if_pos hr]
  refine ⟨_, rfl, ?_, by decide, rfl, ?_⟩
  · refine key _ (storedSpecies ⟨0, "a", "A", 4611686018427387904, 1, 2, 1, [], ""⟩) rfl ?_
    show ((4611686018427387904 : Int) : ℚ)
      / (((-9223372036854775808 : Int) : ℚ) / ((2 : Nat) : ℚ)) < 0.05
    norm_num
  · show ((4611686018427387904 : Int) : ℚ)
      / (((9223372036854775808 : Int) : ℚ) / ((2 : Int) : ℚ)) = 1
    norm_num

/-- C9 (amended). For a loaded registry whose weights sum to less than `2^32`
and a valid id, with `r = weight / (totalWeight / speciesCount)`, where
`totalWeight` is the sum of the weights: the picker's `meanWeight` is
`totalWeight / speciesCount`, and `SpeciesTier` is Mythic if `r < 0.05`, Legendary
if `0.05 ≤ r < 0.20`, Epic if `0.20 ≤ r < 0.50`, Rare if `0.50 ≤ r < 1.00`, Uncommon
if `1.00 ≤ r < 1.50` and Common if `1.50 ≤ r`. -/
theorem SpeciesTier_spec [LinearOrderedField α] (allocLimit : Nat)
    (arr : List (SpeciesJSON α)) (reg : Registry α)
    (h : LoadRegistryFromJSON allocLimit arr = .ok reg)
    (hsum : (reg.All.map (fun sp => sp.Weight)).sum < 4294967296)
    (i : Int) (sp : Species α) (hsp : reg.GetById i = some sp) :
    (NewPicker reg).meanWeight
      = (((reg.All.map (fun s => s.Weight)).sum : Int) : α) / ((reg.Count : Int) : α) ∧
    (((sp.Weight : α) / ((((reg.All.map (fun s => s.Weight)).sum : Int) : α)
        / ((reg.Count : Int) : α)) < 0.05) →
      (NewPicker reg).SpeciesTier i = TierMythic) ∧
    ((0.05 ≤ (sp.Weight : α) / ((((reg.All.map (fun s => s.Weight)).sum : Int) : α)
        / ((reg.Count : Int) : α))) →
      ((sp.Weight : α) / ((((reg.All.map (fun s => s.Weight)).sum : Int) : α)
        / ((reg.Count : Int) : α)) < 0.20) →
      (NewPicker reg).SpeciesTier i = TierLegendary) ∧
    ((0.20 ≤ (sp.Weight : α) / ((((reg.All.map (fun s => s.Weight)).sum : Int) : α)
        / ((reg.Count : Int) : α))) →
      ((sp.Weight : α) / ((((reg.All.map (fun s => s.Weight)).sum : Int) : α)
        / ((reg.Count : Int) : α)) < 0.50) →
      (NewPicker reg).SpeciesTier i = TierEpic) ∧
    ((0.50 ≤ (sp.Weight : α) / ((((reg.All.map (fun s => s.Weight)).sum : Int) : α)
        / ((reg.Count : Int) : α))) →
      ((sp.Weight : α) / ((((reg.All.map (fun s => s.Weight)).sum : Int) : α)
        / ((reg.Count : Int) : α)) < 1.00) →
      (NewPicker reg).SpeciesTier i = TierRare) ∧
    ((1.00 ≤ (sp.Weight : α) / ((((reg.All.map (fun s => s.Weight)).sum : Int) : α)
        / ((reg.Count : Int) : α))) →
      ((sp.Weight : α) / ((((reg.All.map (fun s => s.Weight)).sum : Int) : α)
        / ((reg.Count : Int) : α)) < 1.50) →
      (NewPicker reg).SpeciesTier i = TierUncommon) ∧
    ((1.50 ≤ (sp.Weight : α) / ((((reg.All.map (fun s => s.Weight)).sum : Int) : α)
        / ((reg.Count : Int) : α))) →
      (NewPicker reg).SpeciesTier i = TierCommon) := by
  have hw := load_weights arr reg h
  have hfit : cumulativeWeight reg.byId reg.byId.length < 9223372036854775808 := by
    rw [cumulativeWeight_all]
    exact lt_trans hsum (by norm_num)
  obtain ⟨-, htot, -⟩ := cumulativeLoop_zero reg.byId hw hfit
  have hmean : (NewPicker reg).meanWeight
      = (((reg.All.map (fun s => s.Weight)).sum : Int) : α) / ((reg.Count : Int) : α) := by
    show (((cumulativeLoop reg.byId 0).2 : Int) : α) / ((reg.byId.length : Nat) : α) = _
    rw [htot, zero_add, cumulativeWeight_all]
    unfold Registry.Count Registry.All
    rw [Int.cast_natCast]
  have htier : ∀ t : RarityTier, (NewPicker reg).SpeciesTier i = t ↔
      (if (sp.Weight : α) / (NewPicker reg).meanWeight < 0.05 then TierMythic
      else if (sp.Weight : α) / (NewPicker reg).meanWeight < 0.20 then TierLegendary
      else if (sp.Weight : α) / (NewPicker reg).meanWeight < 0.50 then TierEpic
      else if (sp.Weight : α) / (NewPicker reg).meanWeight < 1.00 then TierRare
      else if (sp.Weight : α) / (NewPicker reg).meanWeight < 1.50 then TierUncommon
      else TierCommon) = t := by
    intro t
    have : (NewPicker reg).reg.GetById i = some sp := hsp
    unfold Picker.SpeciesTier
    rw [this]
  rw [← hmean]
  have e1 : (0.05 : α) ≤ 0.20 := by norm_num
  have e2 : (0.20 : α) ≤ 0.50 := by norm_num
  have e3 : (0.50 : α) ≤ 1.00 := by norm_num
  have e4 : (1.00 : α) ≤ 1.50 := by norm_num
  refine ⟨rfl, ?_, ?_, ?_, ?_, ?_, ?_⟩
  · intro h1
    rw [htier, if_pos h1]
  · intro h1 h2
    rw [htier, if_neg (not_lt.mpr h1), if_pos h2]
  · intro h1 h2
    rw [htier, if_neg (not_lt.mpr (e1.trans h1)), if_neg (not_lt.mpr h1), if_pos h2]
  · intro h1 h2
    rw [htier, if_neg (not_lt.mpr (e1.trans (e2.trans h1))),
      if_neg (not_lt.mpr (e2.trans h1)), if_neg (not_lt.mpr h1), if_pos h2]
  · intro h1 h2
    rw [htier, if_neg (not_lt.mpr (e1.trans (e2.trans (e3.trans h1)))),
      if_neg (not_lt.mpr (e2.trans (e3.trans h1))), if_neg (not_lt.mpr (e3.trans h1)),
      if_neg (not_lt.mpr h1), if_pos h2]
  · intro h1
    rw [htier, if_neg (not_lt.mpr (e1.trans (e2.trans (e3.trans (e4.trans h1))))),
      if_neg (not_lt.mpr (e2.trans (e3.trans (e4.trans h1)))),
      if_neg (not_lt.mpr (e3.trans (e4.trans h1))), if_neg (not_lt.mpr (e4.trans h1)),
      if_neg (not_lt.mpr h1)]

theorem SpeciesTier_spec_witness :
    ∃ reg : Registry ℚ,
      LoadRegistryFromJSON 1000
        [⟨0, "minnow", "Minnow", 100, 2, 10, 1, [], "minnow.png"⟩,
         ⟨1, "whale", "Whale", 1, 500, 2000, 3, [], ""⟩] = .ok reg ∧
      (NewPicker reg).SpeciesTier 1 = TierMythic :=
  ⟨_, rfl,
    (SpeciesTier_spec 1000
      [⟨0, "minnow", "Minnow", 100, 2, 10, 1, [], "minnow.png"⟩,
       ⟨1, "whale", "Whale", 1, 500, 2000, 3, [], ""⟩] _ rfl (by decide) 1
      (storedSpecies ⟨1, "whale", "Whale", 1, 500, 2000, 3, [], ""⟩) rfl).2.1
      (by
        show ((1 : Int) : ℚ) / (((101 : Int) : ℚ) / ((2 : Int) : ℚ)) < 0.05
        norm_num)⟩

end tier

section rounding
variable {α : Type} [LinearOrderedField α] [FloorRing α]

theorem mathRound_intCast (n : Int) : mathRound (n : α) = (n : α) := by
  unfold mathRound
  have hfl : ∀ m : Int, ⌊(m : α) + 1 / 2⌋ = m := by
    intro m
    rw [Int.floor_eq_iff]
    constructor <;> linarith
  split
  · have := hfl (-n)
    push_cast at this
    rw [this]
    push_cast
    ring
  · rw [hfl n]

end rounding

/-- The exponents of `RollSize` and `SizePercentile` differ for a `sizeBias`
between 0 and 1, and a degenerate range has percentile 0: with `minSize = 0`,
`maxSize = 1` and `sizeBias = 1/2` the roll uses `k = 1`, and the percentile of
the unrounded roll at `u = 1/2` is `1/4`; with `minSize = maxSize = 5` the
percentile of the unrounded roll at `u = 1/2` is `0`. -/
theorem SizePercentile_not_inverse :
    SizePercentile Real.rpow ⟨0, "a", "A", 1, 0, 1, 1 / 2, [], ""⟩
        ((0 : ℝ) + ((if (1 : ℝ) < 0 then 0 else 1) - 0)
          * Real.rpow (1 / 2) (if (1 / 2 : ℝ) < 1 then 1 else 1 / 2)) = 1 / 4 ∧
    (1 / 4 : ℝ) ≠ 1 / 2 ∧
    SizePercentile Real.rpow ⟨0, "b", "B", 1, 5, 5, 1, [], ""⟩
        ((5 : ℝ) + ((if (5 : ℝ) < 5 then 5 else 5) - 5)
          * Real.rpow (1 / 2) (if (1 : ℝ) < 1 then 1 else 1)) = 0 ∧
    (0 : ℝ) ≠ 1 / 2 := by
  refine ⟨?_, by norm_num, ?_, by norm_num⟩
  · unfold SizePercentile
    simp only [Real.rpow_eq_pow]
    norm_num
  · unfold SizePercentile
    simp

section image
variable {α : Type}

theorem GetById_of_load [Zero α] {allocLimit : Nat} (arr : List (SpeciesJSON α))
    (reg : Registry α) (h : LoadRegistryFromJSON allocLimit arr = .ok reg)
    (d : SpeciesJSON α) (hd : d ∈ arr) :
    reg.GetById d.Id = some (storedSpecies d) := by
  obtain ⟨-, h2, -, -, -, h6, -, -⟩ := load_ok_char arr reg h
  exact (GetById_eq reg d.Id _).mpr ⟨(h2 d hd).1, (h6 d hd).2⟩

theorem GetById_stored [Zero α] {allocLimit : Nat} (arr : List (SpeciesJSON α))
    (reg : Registry α) (h : LoadRegistryFromJSON allocLimit arr = .ok reg)
    (i : Int) (sp : Species α)
    (hsp : reg.GetById i = some sp) : ∃ d ∈ arr, d.Id = i ∧ sp = storedSpecies d := by
  obtain ⟨-, -, -, -, h5, h6, h7, -⟩ := load_ok_char arr reg h
  obtain ⟨h0, hget⟩ := (GetById_eq reg i sp).mp hsp
  have hlt := (List.getElem?_eq_some.mp hget).1
  obtain ⟨d, hd, he⟩ := h7 i.toNat (by omega)
  have := (h6 d hd).2
  rw [he, Int.toNat_ofNat, hget] at this
  exact ⟨d, hd, by omega, Option.some.inj this⟩

theorem EmbedThumb_of_load [Zero α] {allocLimit : Nat} (arr : List (SpeciesJSON α))
    (reg : Registry α) (h : LoadRegistryFromJSON allocLimit arr = .ok reg) (i : Int) :
    reg.EmbedThumb i = none := by
  unfold Registry.EmbedThumb
  cases hsp : reg.GetById i with
  | none => rfl
  | some sp =>
    obtain ⟨d, -, -, rfl⟩ := GetById_stored arr reg h i sp hsp
    simp [storedSpecies]

/-- C13 (the code at the failing input). The registry loaded from the one
descriptor with image `"minnow.png"` stores key, name, weight, sizes, bias and
tags, with the image empty, and `EmbedThumb` finds no thumbnail; for every
loaded registry `EmbedThumb` finds none at any id. -/
theorem load_drops_image :
    (∃ reg : Registry ℚ,
      LoadRegistryFromJSON 1000
        [⟨0, "minnow", "Minnow", 100, 2, 10, 1, ["river"], "minnow.png"⟩] = .ok reg ∧
      reg.GetById 0 = some ⟨0, "minnow", "Minnow", 100, 2, 10, 1, ["river"], ""⟩ ∧
      reg.EmbedThumb 0 = none) ∧
    (∀ (allocLimit : Nat) (arr : List (SpeciesJSON ℚ)) (reg : Registry ℚ),
      LoadRegistryFromJSON allocLimit arr = .ok reg → ∀ i : Int, reg.EmbedThumb i = none) :=
  ⟨⟨_, rfl, rfl, rfl⟩, fun _ arr reg h i => EmbedThumb_of_load arr reg h i⟩

end image

section greatest
variable {α : Type}

theorem sum_le_length_mul (l : List Int) (m : Int) (h : ∀ x ∈ l, x ≤ m) :
    l.sum ≤ (l.length : Int) * m := by
  induction l with
  | nil => simp
  | cons a rest ih =>
    have h1 := h a (List.mem_cons_self _ _)
    have h2 := ih (fun x hx => h x (List.mem_cons_of_mem _ hx))
    simp only [List.sum_cons, List.length_cons]
    push_cast
    linarith

theorem length_mul_le_sum (l : List Int) (m : Int) (h : ∀ x ∈ l, m ≤ x) :
    (l.length : Int) * m ≤ l.sum := by
  induction l with
  | nil => simp
  | cons a rest ih =>
    have h1 := h a (List.mem_cons_self _ _)
    have h2 := ih (fun x hx => h x (List.mem_cons_of_mem _ hx))
    simp only [List.sum_cons, List.length_cons]
    push_cast
    linarith

theorem NewPicker_meanWeight [LinearOrderedField α] (reg : Registry α)
    (hw : ∀ sp ∈ reg.byId, 1 ≤ sp.Weight)
    (hfit : cumulativeWeight reg.byId reg.byId.length < 9223372036854775808) :
    (NewPicker reg).meanWeight
      = (((reg.byId.map (fun s => s.Weight)).sum : Int) : α) / ((reg.byId.length : Nat) : α) := by
  obtain ⟨-, htot, -⟩ := cumulativeLoop_zero reg.byId hw hfit
  show (((cumulativeLoop reg.byId 0).2 : Int) : α) / ((reg.byId.length : Nat) : α) = _
  rw [htot, zero_add, cumulativeWeight_all]

theorem SpeciesTier_of_ratio [LinearOrderedField α] (p : Picker α) (i : Int) (sp : Species α)
    (hsp : p.reg.GetById i = some sp) (h1 : 1 ≤ (sp.Weight : α) / p.meanWeight) :
    (p.SpeciesTier i = TierUncommon ∨ p.SpeciesTier i = TierCommon) ∧
    ((sp.Weight : α) / p.meanWeight < 1.50 → p.SpeciesTier i = TierUncommon) := by
  unfold Picker.SpeciesTier
  rw [hsp]
  simp only
  have e1 : ¬ (sp.Weight : α) / p.meanWeight < 0.05 := by
    rw [not_lt]; exact le_trans (by norm_num) h1
  have e2 : ¬ (sp.Weight : α) / p.meanWeight < 0.20 := by
    rw [not_lt]; exact le_trans (by norm_num) h1
  have e3 : ¬ (sp.Weight : α) / p.meanWeight < 0.50 := by
    rw [not_lt]; exact le_trans (by norm_num) h1
  have e4 : ¬ (sp.Weight : α) / p.meanWeight < 1.00 := by
    rw [not_lt]; exact le_trans (by norm_num) h1
  rw [if_neg e1, if_neg e2, if_neg e3, if_neg e4]
  constructor
  · split
    · exact Or.inl rfl
    · exact Or.inr rfl
  · intro h; rw [if_pos h]

theorem SpeciesTier_of_small_ratio [LinearOrderedField α] (p : Picker α) (i : Int)
    (sp : Species α) (hsp : p.reg.GetById i = some sp)
    (hr : (sp.Weight : α) / p.meanWeight < 0.05) : p.SpeciesTier i = TierMythic := by
  unfold Picker.SpeciesTier
  rw [hsp]
  simp only
  rw [if_pos hr]

/-- C14 (counterexample). The catalogue of two species of weight `2^62` loads;
all species have the same, greatest, weight, the sum of the weights wraps, and
both species are Mythic, neither Uncommon nor Common. -/
theorem SpeciesTier_equal_weights_overflow :
    ∃ reg : Registry ℚ,
      LoadRegistryFromJSON 1000
        [⟨0, "a", "A", 4611686018427387904, 1, 2, 1, [], ""⟩,
         ⟨1, "b", "B", 4611686018427387904, 1, 2, 1, [], ""⟩] = .ok reg ∧
      reg.All.map (fun s => s.Weight) = [4611686018427387904, 4611686018427387904] ∧
      (NewPicker reg).SpeciesTier 0 = TierMythic ∧
      (NewPicker reg).SpeciesTier 1 = TierMythic ∧
      TierMythic ≠ TierUncommon ∧ TierMythic ≠ TierCommon := by
  refine ⟨_, rfl, rfl, ?_, ?_, by decide, by decide⟩
  · refine SpeciesTier_of_small_ratio _ 0
      (storedSpecies ⟨0, "a", "A", 4611686018427387904, 1, 2, 1, [], ""⟩) rfl ?_
    show ((4611686018427387904 : Int) : ℚ)
      / (((-9223372036854775808 : Int) : ℚ) / ((2 : Nat) : ℚ)) < 0.05
    norm_num
  · refine SpeciesTier_of_small_ratio _ 1
      (storedSpecies ⟨1, "b", "B", 4611686018427387904, 1, 2, 1, [], ""⟩) rfl ?_
    show ((4611686018427387904 : Int) : ℚ)
      / (((-9223372036854775808 : Int) : ℚ) / ((2 : Nat) : ℚ)) < 0.05
    norm_num

/-- C14 (amended). For a registry produced by a successful load whose weights
sum to less than `2^53`, and a species found at id `i`: if no species has a
greater weight, then `weight / meanWeight ≥ 1` and `SpeciesTier i` is Uncommon or
Common, hence none of Rare, Epic, Legendary and Mythic; if all species have the
weight of this one, then every species is Uncommon, and so not Common. -/
theorem SpeciesTier_greatest_weight [LinearOrderedField α] (allocLimit : Nat)
    (arr : List (SpeciesJSON α)) (reg : Registry α)
    (h : LoadRegistryFromJSON allocLimit arr = .ok reg)
    (hsum : (reg.All.map (fun s => s.Weight)).sum < 9007199254740992)
    (i : Int) (sp : Species α) (hsp : reg.GetById i = some sp) :
    ((∀ s ∈ reg.All, s.Weight ≤ sp.Weight) →
      1 ≤ (sp.Weight : α) / (NewPicker reg).meanWeight ∧
      ((NewPicker reg).SpeciesTier i = TierUncommon ∨
        (NewPicker reg).SpeciesTier i = TierCommon) ∧
      (NewPicker reg).SpeciesTier i ≠ TierRare ∧ (NewPicker reg).SpeciesTier i ≠ TierEpic ∧
      (NewPicker reg).SpeciesTier i ≠ TierLegendary ∧
      (NewPicker reg).SpeciesTier i ≠ TierMythic) ∧
    ((∀ s ∈ reg.All, s.Weight = sp.Weight) →
      ∀ (j : Int) (sj : Species α), reg.GetById j = some sj →
        (NewPicker reg).SpeciesTier j = TierUncommon ∧
        (NewPicker reg).SpeciesTier j ≠ TierCommon) := by
  have hw := load_weights arr reg h
  have hfit : cumulativeWeight reg.byId reg.byId.length < 9223372036854775808 := by
    rw [cumulativeWeight_all]
    exact lt_trans hsum (by norm_num)
  have hmean := NewPicker_meanWeight reg hw hfit
  have hlen : 0 < reg.byId.length := by
    obtain ⟨-, hget⟩ := (GetById_eq reg i sp).mp hsp
    have := (List.getElem?_eq_some.mp hget).1
    omega
  have hlen' : (0 : α) < ((reg.byId.length : Nat) : α) := by exact_mod_cast hlen
  have hsum1 : (reg.byId.length : Int) * 1 ≤ (reg.byId.map (fun s => s.Weight)).sum := by
    have := length_mul_le_sum (reg.byId.map (fun s => s.Weight)) 1 (by
      intro x hx
      obtain ⟨s, hs, rfl⟩ := List.mem_map.mp hx
      exact hw s hs)
    simpa using this
  have hsumpos : (0 : α) < (((reg.byId.map (fun s => s.Weight)).sum : Int) : α) := by
    have : (0 : Int) < (reg.byId.map (fun s => s.Weight)).sum := by omega
    exact_mod_cast this
  have hmeanpos : 0 < (NewPicker reg).meanWeight := by
    rw [hmean]; exact div_pos hsumpos hlen'
  constructor
  · intro hmax
    have hsum : (reg.byId.map (fun s => s.Weight)).sum ≤ (reg.byId.length : Int) * sp.Weight := by
      have := sum_le_length_mul (reg.byId.map (fun s => s.Weight)) sp.Weight (by
        intro x hx
        obtain ⟨s, hs, rfl⟩ := List.mem_map.mp hx
        exact hmax s hs)
      simpa using this
    have hr : 1 ≤ (sp.Weight : α) / (NewPicker reg).meanWeight := by
      rw [one_le_div hmeanpos, hmean, div_le_iff₀ hlen']
      have : (((reg.byId.map (fun s => s.Weight)).sum : Int) : α)
          ≤ (((reg.byId.length : Int) * sp.Weight : Int) : α) := Int.cast_le.mpr hsum
      rw [Int.cast_mul, Int.cast_natCast] at this
      linarith
    have ht := (SpeciesTier_of_ratio (NewPicker reg) i sp hsp hr).1
    refine ⟨hr, ht, ?_, ?_, ?_, ?_⟩ <;>
      · rcases ht with ht | ht <;> rw [ht] <;> decide
  · intro heq j sj hsj
    have hwj : sj.Weight = sp.Weight := by
      obtain ⟨-, hget⟩ := (GetById_eq reg j sj).mp hsj
      exact heq sj (List.mem_iff_getElem?.mpr ⟨_, hget⟩)
    have hsum : (reg.byId.map (fun s => s.Weight)).sum = (reg.byId.length : Int) * sp.Weight := by
      apply le_antisymm
      · have := sum_le_length_mul (reg.byId.map (fun s => s.Weight)) sp.Weight (by
          intro x hx
          obtain ⟨s, hs, rfl⟩ := List.mem_map.mp hx
          exact le_of_eq (heq s hs))
        simpa using this
      · have := length_mul_le_sum (reg.byId.map (fun s => s.Weight)) sp.Weight (by
          intro x hx
          obtain ⟨s, hs, rfl⟩ := List.mem_map.mp hx
          exact le_of_eq (heq s hs).symm)
        simpa using this
    have hwpos : (0 : α) < (sp.Weight : α) := by
      have h1 : 1 ≤ sp.Weight := by
        obtain ⟨-, hget⟩ := (GetById_eq reg i sp).mp hsp
        exact hw sp (List.mem_iff_getElem?.mpr ⟨_, hget⟩)
      have : (0 : Int) < sp.Weight := by omega
      exact_mod_cast this
    have hr : (sj.Weight : α) / (NewPicker reg).meanWeight = 1 := by
      rw [hmean, hsum, hwj]
      push_cast
      field_simp
    have ht := (SpeciesTier_of_ratio (NewPicker reg) j sj hsj (le_of_eq hr.symm)).2
      (by rw [hr]; norm_num)
    exact ⟨ht, by rw [ht]; decide⟩

theorem SpeciesTier_greatest_weight_witness :
    ∃ reg : Registry ℚ,
      LoadRegistryFromJSON 1000 [⟨0, "whale", "Whale", 1, 500, 2000, 3, [], ""⟩]
        = .ok reg ∧
      (NewPicker reg).SpeciesTier 0 = TierUncommon :=
  ⟨_, rfl,
    ((SpeciesTier_greatest_weight 1000 [⟨0, "whale", "Whale", 1, 500, 2000, 3, [], ""⟩] _ rfl
      (by decide) 0
      (storedSpecies ⟨0, "whale", "Whale", 1, 500, 2000, 3, [], ""⟩) rfl).2
      (fun s hs => by
        have hs' : s ∈ [storedSpecies ⟨0, "whale", "Whale", 1, 500, 2000, 3, [], ""⟩] := hs
        rw [List.mem_singleton.mp hs'])
      0 (storedSpecies ⟨0, "whale", "Whale", 1, 500, 2000, 3, [], ""⟩) rfl).1⟩

end greatest

end fish

namespace ratelimit

/-- C12 (counterexample). With `minCooldown = -5e18 ns` and
`maxCooldown = 5e18 ns`, whose span wraps to a negative `int64`, the `Try` that
follows a `Reset` panics in `Int63n`: it returns nothing. -/
theorem Reset_then_Try_span_overflow_panics :
    (Limiter.Reset (NewLimiter (-5000000000000000000) 5000000000000000000) "g" "u").Try
      0 0 0 "g" "u" = none := by
  simp [Limiter.Try, Limiter.TryKey, Limiter.Reset, Limiter.nextCooldown, NewLimiter, Int63n,
    isInt64, wrapInt64]

/-- C12 (amended). For a limiter built by `NewLimiter cmin cmax` whose span
`max - cmin` (with `max` the clamped maximum) is below `2^63`, in any state
`next` (whatever deadline is stored), and any `guildId` and `userId`: after
`Reset` the actor has no entry (`Peek` finds none), and a `Try` for the same
actor that follows, at any clock reading, returns `(true, 0)`. -/
theorem Reset_then_Try (cmin cmax : Duration)
    (hspan : Max.max cmin cmax - cmin < 9223372036854775808)
    (next : String → Option Time) (guildId userId : String)
    (now wall : Time) (draw : Nat) :
    (Limiter.Reset ⟨next, (NewLimiter cmin cmax).min, (NewLimiter cmin cmax).max⟩
      guildId userId).Peek guildId userId = none ∧
    (Limiter.Reset ⟨next, (NewLimiter cmin cmax).min, (NewLimiter cmin cmax).max⟩
      guildId userId).next (guildId ++ ":" ++ userId) = none ∧
    ∃ l' : Limiter,
      (Limiter.Reset ⟨next, (NewLimiter cmin cmax).min, (NewLimiter cmin cmax).max⟩
        guildId userId).Try now wall draw guildId userId = some (l', true, 0) := by
  have hnone : (Limiter.Reset ⟨next, (NewLimiter cmin cmax).min, (NewLimiter cmin cmax).max⟩
      guildId userId).next (guildId ++ ":" ++ userId) = none := by
    simp [Limiter.Reset]
  have hle : (Limiter.Reset ⟨next, (NewLimiter cmin cmax).min, (NewLimiter cmin cmax).max⟩
      guildId userId).min ≤ (Limiter.Reset ⟨next, (NewLimiter cmin cmax).min,
        (NewLimiter cmin cmax).max⟩ guildId userId).max := by
    show (NewLimiter cmin cmax).min ≤ (NewLimiter cmin cmax).max
    rw [NewLimiter_min, NewLimiter_max]
    exact le_max_left _ _
  have hfit : (Limiter.Reset ⟨next, (NewLimiter cmin cmax).min, (NewLimiter cmin cmax).max⟩
      guildId userId).max - (Limiter.Reset ⟨next, (NewLimiter cmin cmax).min,
        (NewLimiter cmin cmax).max⟩ guildId userId).min < 9223372036854775808 := by
    show (NewLimiter cmin cmax).max - (NewLimiter cmin cmax).min < 9223372036854775808
    rw [NewLimiter_min, NewLimiter_max]
    exact hspan
  obtain ⟨c, hc, -, -⟩ := nextCooldown_some _ hle (fun _ _ => hfit) draw
  have htry := TryKey_grant _ now wall draw (guildId ++ ":" ++ userId) c hc
    (by intro t ht; rw [hnone] at ht; cases ht)
  exact ⟨hnone, hnone, _, htry⟩

theorem Reset_then_Try_witness :
    ∃ l' : Limiter,
      (Limiter.Reset ⟨fun _ => some 1000, (NewLimiter (240 * Second) (300 * Second)).min,
        (NewLimiter (240 * Second) (300 * Second)).max⟩ "g" "u").Try 0 0 7 "g" "u"
          = some (l', true, 0) :=
  (Reset_then_Try (240 * Second) (300 * Second) (by decide) (fun _ => some 1000) "g" "u"
    0 0 7).2.2

end ratelimit
